import Mathlib

/-!  Verification of the axon spiking-network engine specification against the
source code (Go).  Shallow embedding: float32 values are modelled as rationals
(the claims under study are control-flow and algebraic properties, not
rounding properties), machine integer counters as Int/Nat, and in-place
mutation as explicit state passing.  Definitions are translated from the
source files (act.go, prjn.go, prjn_compute.go, networkbase.go, synapse.go);
functions of this repository that are referenced but whose source is not
available (learn.go, act_prjn.go, the kinase package) are modelled from the
specification and marked `Modelled from the spec` in their doc comments.
External library helpers (goki/mat32, etable/minmax, emergent/ringidx,
emergent/weights) are embedded by their documented semantics.  -/

namespace Axon

/-- Embeds etable/minmax.F32 (external library): a min/max range with ClipVal.
Used for ActParams.VmRange. -/
structure F32Range where
  min : ℚ
  max : ℚ
deriving DecidableEq

/-- ClipVal from minmax.F32: clamp a value into the range. -/
def F32Range.clipVal (mr : F32Range) (v : ℚ) : ℚ :=
  if v < mr.min then mr.min else if v > mr.max then mr.max else v

/-- Chans from chans/chans.go: per-channel values (E, L, I, K). -/
structure Chans where
  e : ℚ
  l : ℚ
  i : ℚ
  k : ℚ
deriving DecidableEq

/-- SpikeParams from act.go (fields used by VmFmG / SpikeFmVm).
`tr` is the int32 refractory period, `rDt` the derived 1/RTau rate. -/
structure SpikeParams where
  thr : ℚ
  vmR : ℚ
  tr : ℤ
  rTau : ℚ
  exp : Bool
  expSlope : ℚ
  expThr : ℚ
  rDt : ℚ
deriving DecidableEq

/-- DtParams from act.go, restricted to the fields read by the embedded
functions.  The derived rates (vmDt etc.) are stored as plain fields, exactly
as in the Go struct (they are filled in by Update in the source). -/
structure DtParams where
  integ : ℚ
  vmTau : ℚ
  vmSteps : ℕ
  vmDt : ℚ
  vmDendDt : ℚ
  dtStep : ℚ
  geDt : ℚ
  giDt : ℚ
deriving DecidableEq

/-- GeSynFmRaw from act.go: integrate a synaptic conductance from raw spiking
input using GeTau: geSyn + geRaw - GeDt*geSyn. -/
def DtParams.geSynFmRaw (dp : DtParams) (geSyn geRaw : ℚ) : ℚ :=
  geSyn + geRaw - dp.geDt * geSyn

/-- GiSynFmRaw from act.go: integrate an inhibitory synaptic conductance from
raw spiking input using GiTau. -/
def DtParams.giSynFmRaw (dp : DtParams) (giSyn giRaw : ℚ) : ℚ :=
  giSyn + giRaw - dp.giDt * giSyn

/-- SpikeNoiseParams from act.go (fields used by PGe / PGi / GeNoise /
GiNoise). -/
structure SpikeNoiseParams where
  isOn : Bool
  ge : ℚ
  gi : ℚ
  geExpInt : ℚ
  giExpInt : ℚ
deriving DecidableEq

/-- PGe from act.go: multiply the running probability by the drawn uniform
random number (`rnd` stands for the external GetRandomNumber draw) and emit a
noise conductance when it crosses threshold.  Returns (new p, ge). -/
def SpikeNoiseParams.pGe (an : SpikeNoiseParams) (p rnd : ℚ) : ℚ × ℚ :=
  let p := p * rnd
  if p ≤ an.geExpInt then (1, an.ge) else (p, 0)

/-- PGi from act.go, analogous to PGe for the inhibitory noise. -/
def SpikeNoiseParams.pGi (an : SpikeNoiseParams) (p rnd : ℚ) : ℚ × ℚ :=
  let p := p * rnd
  if p ≤ an.giExpInt then (1, an.gi) else (p, 0)

/-- ClampParams from act.go (fields used by GeFmSyn). -/
structure ClampParams where
  add : Bool
  ge : ℚ
deriving DecidableEq

/-- AttnParams from act.go. -/
structure AttnParams where
  isOn : Bool
  min : ℚ
deriving DecidableEq

/-- ModVal from act.go: negative values are clamped to 0, then the attention
multiplier is applied when attention is on. -/
def AttnParams.modVal (at_ : AttnParams) (val attn : ℚ) : ℚ :=
  let val := if val < 0 then 0 else val
  if at_.isOn = false then val
  else val * (at_.min + (1 - at_.min) * attn)

/-- DendParams from act.go (fields used by VmFmG). -/
structure DendParams where
  gbarExp : ℚ
  gbarR : ℚ
deriving DecidableEq

/-- ActParams from act.go, restricted to the parameter groups read by the
embedded per-cycle functions (channel-specific groups such as NMDA or VGCC are
not needed by the claims under study). -/
structure ActParams where
  spike : SpikeParams
  dend : DendParams
  dt : DtParams
  gbar : Chans
  erev : Chans
  clamp : ClampParams
  noise : SpikeNoiseParams
  vmRange : F32Range
  attn : AttnParams
deriving DecidableEq

/-- Neuron state fields from neuron.go that are read or written by the
embedded act.go functions.  `hasExt` stands for the NeuronHasExt flag. -/
structure Neuron where
  spike : ℚ
  isi : ℚ
  vm : ℚ
  vmDend : ℚ
  inet : ℚ
  ge : ℚ
  gi : ℚ
  gk : ℚ
  geExt : ℚ
  ext : ℚ
  hasExt : Bool
  attn : ℚ
  geNoise : ℚ
  geNoiseP : ℚ
  giNoise : ℚ
  giNoiseP : ℚ
  ssgiDend : ℚ
deriving DecidableEq

instance : Inhabited Neuron :=
  ⟨⟨0, 0, 0, 0, 0, 0, 0, 0, 0, 0, false, 0, 0, 0, 0, 0, 0⟩⟩

/-- Executable rational stand-in for mat32.FastExp (external goki/mat32
library).  The theorems in this file do not depend on its values; any
function returning a non-negative rational would do.  -/
def fastExp (x : ℚ) : ℚ :=
  if x < -(87 : ℚ) then 0 else 1 + x + x * x / 2 + x * x * x / 6

/-- GeNoise from act.go: update nrn.GeNoise (and GeNoiseP) if active and add
it into Ge.  `rnd` is the external uniform random draw. -/
def ActParams.geNoiseUpd (ac : ActParams) (nrn : Neuron) (rnd : ℚ) : Neuron :=
  if ac.noise.isOn = false ∨ ac.noise.ge = 0 then nrn
  else
    let pr := ac.noise.pGe nrn.geNoiseP rnd
    let geNoise := ac.dt.geSynFmRaw nrn.geNoise pr.2
    { nrn with geNoiseP := pr.1, geNoise := geNoise, ge := nrn.ge + geNoise }

/-- GiNoise from act.go: update nrn.GiNoise (and GiNoiseP) if active. -/
def ActParams.giNoiseUpd (ac : ActParams) (nrn : Neuron) (rnd : ℚ) : Neuron :=
  if ac.noise.isOn = false ∨ ac.noise.gi = 0 then nrn
  else
    let pr := ac.noise.pGi nrn.giNoiseP rnd
    { nrn with giNoiseP := pr.1, giNoise := ac.dt.giSynFmRaw nrn.giNoise pr.2 }

/-- The body of GeFmSyn from act.go before its final GeNoise call: external
input clamping, attentional modulation, and the clamping of a negative Ge to
zero. -/
def ActParams.geFmSynPre (ac : ActParams) (nrn : Neuron) (geSyn geExt : ℚ) :
    Neuron :=
  let nrn := { nrn with geExt := 0 }
  let p1 : Neuron × ℚ :=
    if ac.clamp.add = true ∧ nrn.hasExt = true then
      let ge := nrn.ext * ac.clamp.ge
      ({ nrn with geExt := ge }, geSyn + ge)
    else (nrn, geSyn)
  let nrn := p1.1
  let geSyn := ac.attn.modVal p1.2 nrn.attn
  let p2 : Neuron × ℚ × ℚ :=
    if ac.clamp.add = false ∧ nrn.hasExt = true then
      let gs := nrn.ext * ac.clamp.ge
      ({ nrn with geExt := gs }, gs, 0)
    else (nrn, geSyn, geExt)
  let nrn := p2.1
  let ge := p2.2.1 + p2.2.2
  { nrn with ge := if ge < 0 then 0 else ge }

/-- GeFmSyn from act.go: integrates the Ge excitatory conductance from geSyn,
handling external-input clamping, attentional modulation, clamping of negative
values to zero, and the noise contribution (see geFmSynPre and geNoiseUpd). -/
def ActParams.geFmSyn (ac : ActParams) (nrn : Neuron) (geSyn geExt rnd : ℚ) :
    Neuron :=
  ac.geNoiseUpd (ac.geFmSynPre nrn geSyn geExt) rnd

/-- GiFmSyn from act.go: updates the Gi noise state and returns the
inhibitory synaptic conductance, with negative values clamped to zero.
Returns (updated neuron, returned GiSyn value). -/
def ActParams.giFmSyn (ac : ActParams) (nrn : Neuron) (giSyn rnd : ℚ) :
    Neuron × ℚ :=
  let nrn := ac.giNoiseUpd nrn rnd
  (nrn, if giSyn < 0 then 0 else giSyn)

/-- InetFmG from act.go: net current from conductances and Vm, clamped into
the interval [-VmTau, VmTau]. -/
def ActParams.inetFmG (ac : ActParams) (vm ge gl gi gk : ℚ) : ℚ :=
  let inet := ge * (ac.erev.e - vm) + gl * ac.gbar.l * (ac.erev.l - vm) +
    gi * (ac.erev.i - vm) + gk * (ac.erev.k - vm)
  if inet > ac.dt.vmTau then ac.dt.vmTau
  else if inet < -ac.dt.vmTau then -ac.dt.vmTau
  else inet

/-- VmFmInet from act.go: one integration sub-step, clipping the result into
VmRange. -/
def ActParams.vmFmInet (ac : ActParams) (vm dt inet : ℚ) : ℚ :=
  ac.vmRange.clipVal (vm + dt * inet)

/-- One iteration of the VmInteg loop body: recompute inet and take one
clipped sub-step.  The pair is (nvm, inet). -/
def ActParams.vmIntegStep (ac : ActParams) (dt ge gl gi gk : ℚ) (p : ℚ × ℚ) :
    ℚ × ℚ :=
  let inet := ac.inetFmG p.1 ge gl gi gk
  (ac.vmFmInet p.1 dt inet, inet)

/-- VmInteg from act.go: integrate Vm over VmSteps sub-steps, each of size
dt*DtStep and each clipped into VmRange.  Returns (new Vm, last inet). -/
def ActParams.vmInteg (ac : ActParams) (vm dt ge gl gi gk : ℚ) : ℚ × ℚ :=
  let dt := dt * ac.dt.dtStep
  (List.range ac.dt.vmSteps).foldl
    (fun p _ => ac.vmIntegStep dt ge gl gi gk p) (vm, 0)

/-- Refractory-window test of VmFmG from act.go: Tr > 0 and 0 <= ISI < Tr
(the source negates this to obtain updtVm). -/
def ActParams.vmRefract (ac : ActParams) (isi : ℚ) : Prop :=
  ac.spike.tr > 0 ∧ isi ≥ 0 ∧ isi < (ac.spike.tr : ℚ)

instance (ac : ActParams) (isi : ℚ) : Decidable (ac.vmRefract isi) := by
  unfold ActParams.vmRefract; infer_instance

/-- VmFmG from act.go: computes membrane potential Vm (and VmDend, Inet) from
conductances Ge, Gi, Gk.  Outside the post-spike refractory window the
potential is integrated over VmSteps clipped sub-steps (plus the optional
AdEx exponential current, also applied as a clipped sub-step); inside the
window it decays toward VmR, reaching it exactly on the final refractory
cycle (int32 truncation of ISI is modelled by Int.floor, the two agreeing on
the non-negative ISI values of that branch). -/
def ActParams.vmFmG (ac : ActParams) (nrn : Neuron) : Neuron :=
  let ge := nrn.ge * ac.gbar.e
  let gi := nrn.gi * ac.gbar.i
  let gk := nrn.gk * ac.gbar.k
  let soma : ℚ × ℚ × ℚ :=
    if ac.vmRefract nrn.isi then
      let dvm : ℚ :=
        if Int.floor nrn.isi = ac.spike.tr - 1 then ac.spike.vmR - nrn.vm
        else ac.spike.rDt * (ac.spike.vmR - nrn.vm)
      (nrn.vm + dvm, dvm * ac.dt.vmTau, 0)
    else
      let p := ac.vmInteg nrn.vm ac.dt.vmDt ge 1 gi gk
      if ac.spike.exp = true then
        let exVm := (1 / 2 : ℚ) * (p.1 + nrn.vm)
        let expi0 := ac.gbar.l * ac.spike.expSlope *
          fastExp ((exVm - ac.spike.thr) / ac.spike.expSlope)
        let expi := if expi0 > ac.dt.vmTau then ac.dt.vmTau else expi0
        (ac.vmFmInet p.1 ac.dt.vmDt expi, p.2 + expi, expi)
      else (p.1, p.2, 0)
  let dend : ℚ :=
    let glEff : ℚ := if ac.vmRefract nrn.isi then 1 + ac.dend.gbarR else 1
    let giEff := gi + ac.gbar.i * nrn.ssgiDend
    let p := ac.vmInteg nrn.vmDend ac.dt.vmDendDt ge glEff giEff gk
    if ac.vmRefract nrn.isi then p.1
    else ac.vmFmInet p.1 ac.dt.vmDendDt (ac.dend.gbarExp * soma.2.2)
  { nrn with vm := soma.1, inet := soma.2.1, vmDend := dend }

/-! Synapse state and projection index structures, from synapse.go and
prjnbase.go / prjn.go.  -/

/-- Synapse from synapse.go: the CaUpT int32 stamp followed by the eleven
float32 state variables, in the order of the SynapseVars list (the uint32
index fields SynIdx / RecvIdx / SendIdx / PrjnIdx are bookkeeping for the
flat network arrays and are represented by the list positions here). -/
structure Synapse where
  caUpT : ℤ
  wt : ℚ
  lwt : ℚ
  swt : ℚ
  dwt : ℚ
  dswt : ℚ
  ca : ℚ
  caM : ℚ
  caP : ℚ
  caD : ℚ
  tr : ℚ
  dtr : ℚ
deriving DecidableEq

instance : Inhabited Synapse := ⟨⟨-1, 0, 0, 0, 0, 0, 0, 0, 0, 0, 0, 0⟩⟩

/-- SynapseVars from synapse.go: the ordered list of float variable names. -/
def SynapseVars : List String :=
  ["Wt", "LWt", "SWt", "DWt", "DSWt", "Ca", "CaM", "CaP", "CaD", "Tr", "DTr"]

/-- VarByIndex from synapse.go: the idx-th float32 field of the Synapse, in
SynapseVars order (the source reads it by byte offset from SynapseVarStart). -/
def Synapse.varByIndex (sy : Synapse) (idx : ℕ) : ℚ :=
  match idx with
  | 0 => sy.wt
  | 1 => sy.lwt
  | 2 => sy.swt
  | 3 => sy.dwt
  | 4 => sy.dswt
  | 5 => sy.ca
  | 6 => sy.caM
  | 7 => sy.caP
  | 8 => sy.caD
  | 9 => sy.tr
  | _ => sy.dtr

/-- SetVarByIndex from synapse.go: write the idx-th float32 field. -/
def Synapse.setVarByIndex (sy : Synapse) (idx : ℕ) (val : ℚ) : Synapse :=
  match idx with
  | 0 => { sy with wt := val }
  | 1 => { sy with lwt := val }
  | 2 => { sy with swt := val }
  | 3 => { sy with dwt := val }
  | 4 => { sy with dswt := val }
  | 5 => { sy with ca := val }
  | 6 => { sy with caM := val }
  | 7 => { sy with caP := val }
  | 8 => { sy with caD := val }
  | 9 => { sy with tr := val }
  | _ => { sy with dtr := val }

/-- SynapseVarByName from synapse.go: index of a variable name in
SynapseVars, or an error for an unknown name (the SynapseVarsMap lookup). -/
def SynapseVarByName (varNm : String) : Except String ℕ :=
  match SynapseVars.indexOf? varNm with
  | some i => Except.ok i
  | none => Except.error ("Synapse VarByName: variable name not valid")

/-- Prjn connectivity and synapse state, from PrjnBase / Prjn (prjn.go).
`recvN` is the number of receiving-layer neurons; Go indexes out of range
would panic and are totalised here with List.getD (the claims are about
well-formed built networks).  `learnEnabled` is Params.Learn.Learn and
`gScale` is Params.GScale.Scale. -/
structure Prjn where
  sendConN : List ℕ
  sendConIdxStart : List ℕ
  sendConIdx : List ℕ
  recvN : ℕ
  recvConN : List ℕ
  recvConIdxStart : List ℕ
  recvConIdx : List ℕ
  recvSynIdx : List ℕ
  syns : List Synapse
  learnEnabled : Bool
  gScale : ℚ
deriving DecidableEq

/-- Replace the synapse array of a projection (in-place mutation of pj.Syns
in the source). -/
def Prjn.withSyns (pj : Prjn) (s : List Synapse) : Prjn := { pj with syns := s }

/-- SynIdx from prjn.go: the index of the synapse between the given send and
recv unit indexes, searching the sending neuron's connection list; -1 if not
found (or the sender index is out of range). -/
def Prjn.synIdx (pj : Prjn) (sidx ridx : ℕ) : ℤ :=
  if sidx ≥ pj.sendConN.length then -1
  else
    match (List.range (pj.sendConN.getD sidx 0)).find?
        (fun ci => pj.sendConIdx.getD (pj.sendConIdxStart.getD sidx 0 + ci) 0 == ridx) with
    | some ci => ((pj.sendConIdxStart.getD sidx 0 + ci : ℕ) : ℤ)
    | none => -1

/-- SynVal1D from prjn.go: value of the given variable index on the given
synapse index; the source returns mat32.NaN() on any invalid index, which is
modelled as Option.none. -/
def Prjn.synVal1D (pj : Prjn) (varIdx synIdx : ℤ) : Option ℚ :=
  if synIdx < 0 ∨ synIdx ≥ (pj.syns.length : ℤ) then none
  else if varIdx < 0 ∨ varIdx ≥ (SynapseVars.length : ℤ) then none
  else some ((pj.syns.getD synIdx.toNat default).varByIndex varIdx.toNat)

/-- SynVal from prjn.go: value of the named variable on the synapse between
the given send and recv unit indexes; NaN (Option.none) on access errors. -/
def Prjn.synVal (pj : Prjn) (varNm : String) (sidx ridx : ℕ) : Option ℚ :=
  match SynapseVarByName varNm with
  | Except.error _ => none
  | Except.ok vidx => pj.synVal1D (vidx : ℤ) (pj.synIdx sidx ridx)

/-! Weights file round trip: Prjn.WriteWtsJSON and Prjn.SetWts / SetSynVal
(prjn.go).  The external text codec (emergent/weights, strconv) is treated as
exact per its boundary contract in the spec; the embedding works directly on
the decoded weights.Prjn structure. -/

/-- LWtFmWts of SWtParams.  Modelled from the spec: the function lives in
learn.go, which is not under src/ (only its callers are).  Per the spec the
linear weight is recovered from the effective weight and the structural
scaling factor (inverse of the nonlinear combination); its exact shape does
not matter for the claims below, which only concern the Wt and SWt fields. -/
def lwtFmWts (wt swt : ℚ) : ℚ :=
  if swt = 0 then 1 / 2 else wt / (2 * swt)

/-- SetSynVal from prjn.go: set the named variable on the synapse between the
given send and recv unit indexes.  Invalid names or a missing synapse leave
the projection unchanged (the source just returns the error).  Setting "Wt"
also sets SWt := Wt when SWt is zero, and recomputes LWt from Wt and SWt. -/
def Prjn.setSynVal (pj : Prjn) (varNm : String) (sidx ridx : ℕ) (val : ℚ) :
    Prjn :=
  match SynapseVarByName varNm with
  | Except.error _ => pj
  | Except.ok vidx =>
    let synIdx := pj.synIdx sidx ridx
    if synIdx < 0 ∨ synIdx ≥ (pj.syns.length : ℤ) then pj
    else
      let k := synIdx.toNat
      let sy := (pj.syns.getD k default).setVarByIndex vidx val
      let sy :=
        if varNm = "Wt" then
          let sy := if sy.swt = 0 then { sy with swt := sy.wt } else sy
          { sy with lwt := lwtFmWts sy.wt sy.swt }
        else sy
      pj.withSyns (pj.syns.set k sy)

/-- One receiving-neuron record of the weights file ("Rs" entry): receiver
index, sender indexes, weights, structural weights ("Wt1").  From the
emergent/weights decoded structure written by Prjn.WriteWtsJSON. -/
structure WtsRecv where
  ri : ℕ
  si : List ℕ
  wt : List ℚ
  wt1 : List ℚ
deriving DecidableEq

/-- Decoded per-projection weights ("Rs" list plus the GScale metadata). -/
structure WtsPrjn where
  metaGScale : Option ℚ
  rs : List WtsRecv
deriving DecidableEq

/-- WriteWtsJSON from prjn.go, at the level of the decoded structure: for
every receiving neuron, the sender indexes from RecvConIdx and the Wt / SWt
values of the synapses designated by RecvSynIdx (text formatting by the
external codec is exact per the boundary contract). -/
def Prjn.writeWts (pj : Prjn) : WtsPrjn :=
  { metaGScale := some pj.gScale
    rs := (List.range pj.recvN).map (fun ri =>
      let nc := pj.recvConN.getD ri 0
      let st := pj.recvConIdxStart.getD ri 0
      { ri := ri
        si := (List.range nc).map (fun ci => pj.recvConIdx.getD (st + ci) 0)
        wt := (List.range nc).map (fun ci =>
          (pj.syns.getD (pj.recvSynIdx.getD (st + ci) 0) default).wt)
        wt1 := (List.range nc).map (fun ci =>
          (pj.syns.getD (pj.recvSynIdx.getD (st + ci) 0) default).swt) }) }

/-- SetWts from prjn.go: apply decoded weights to the projection.  For each
receiver record, when the Wt1 (SWt) list covers the Si list, SWt is set
before Wt for each sender; Wt is always set (which also updates LWt and, for
a zero SWt, overwrites SWt). -/
def Prjn.setWts (pj : Prjn) (pw : WtsPrjn) : Prjn :=
  let pj :=
    match pw.metaGScale with
    | some gs => { pj with gScale := gs }
    | none => pj
  pw.rs.foldl (fun pj pr =>
    let hasWt1 := pr.wt1.length ≥ pr.si.length
    (List.range pr.si.length).foldl (fun pj j =>
      let sidx := pr.si.getD j 0
      let pj :=
        if hasWt1 then pj.setSynVal "SWt" sidx pr.ri (pr.wt1.getD j 0) else pj
      pj.setSynVal "Wt" sidx pr.ri (pr.wt.getD j 0)) pj) pj

/-- The state of a synapse after a save / load round trip: Wt is rewritten
with its own value, SWt is rewritten with its own value unless it was zero
(in which case SetSynVal("Wt") overwrites it with Wt), and LWt is recomputed
from the restored values. -/
def roundTripSyn (o : Synapse) : Synapse :=
  let swt := if o.swt = 0 then o.wt else o.swt
  { o with swt := swt, lwt := lwtFmWts o.wt swt }

/-- Executable well-formedness check relating the receiver-ordered index
structure to the sender-ordered one (the mutual-consistency invariant of the
two synapse orderings): every receiver connection slot points (via SynIdx on
its sender) at its own RecvSynIdx synapse, which is in range. -/
def Prjn.wfRecv (pj : Prjn) : Bool :=
  (List.range pj.recvN).all (fun ri =>
    let nc := pj.recvConN.getD ri 0
    let st := pj.recvConIdxStart.getD ri 0
    (List.range nc).all (fun ci =>
      let k := pj.recvSynIdx.getD (st + ci) 0
      pj.synIdx (pj.recvConIdx.getD (st + ci) 0) ri == (k : ℤ) &&
        k < pj.syns.length))

/-- The round-trip relation on synapse arrays: every synapse is either still
in its original state or in its round-tripped state (see roundTripSyn). -/
def rtInv (orig cur : List Synapse) : Prop :=
  ∀ k : ℕ, cur.getD k default = orig.getD k default ∨
    cur.getD k default = roundTripSyn (orig.getD k default)

/-- The invariant maintained while Prjn.SetWts replays a written weights
structure onto the projection it came from: the sender-ordered index
structure (all that SynIdx reads) and the synapse count are unchanged, and
every synapse is original or round-tripped. -/
def rtState (pj pjx : Prjn) : Prop :=
  pjx.sendConN = pj.sendConN ∧ pjx.sendConIdxStart = pj.sendConIdxStart ∧
    pjx.sendConIdx = pj.sendConIdx ∧ pjx.syns.length = pj.syns.length ∧
    rtInv pj.syns pjx.syns

/-! Weight commit: Prjn.WtFmDWt (prjn.go) and the SWtParams commit it calls.
The SWtParams methods live in learn.go, which is not under src/, and are
modelled from the spec. -/

/-- Configured weight limits ([min, max] bounds of the commit; SWt.Limit in
the source parameters). -/
structure SWtLimit where
  lo : ℚ
  hi : ℚ
deriving DecidableEq

/-- WtFmDWt of SWtParams.  Modelled from the spec: learn.go is not under
src/ (only the caller Prjn.WtFmDWt is).  Spec 4.4: "Weight commit updates the
fast linear weight from the delta with soft bounding toward configured
limits", and spec 8 asserts that the committed weight stays within the
configured [min, max] for any sequence of deltas: the delta is scaled by the
remaining distance to the limit it approaches, the result is kept inside the
limits, and the consumed delta is reset to zero.  A zero delta leaves the
synapse untouched. -/
def SWtLimit.wtFmDWtSyn (p : SWtLimit) (sy : Synapse) : Synapse :=
  if sy.dwt = 0 then sy
  else
    let d := if sy.dwt > 0 then sy.dwt * (p.hi - sy.wt) else sy.dwt * (sy.wt - p.lo)
    let w := sy.wt + d
    let w := if w < p.lo then p.lo else if w > p.hi then p.hi else w
    { sy with wt := w, lwt := lwtFmWts w sy.swt, dwt := 0 }

/-- Fail of SynComParams.  Modelled from the spec: act_prjn.go is not under
src/.  Spec 4.4: "An optional stochastic-failure model probabilistically
zeroes a committed weight for a cycle"; the Boolean stands for the outcome of
the random draw against the failure probability (false when the model is off,
the PFail = 0 default). -/
def synComFail (fail : Bool) (sy : Synapse) : Synapse :=
  if fail then { sy with wt := 0 } else sy

/-- WtFmDWt from prjn.go: for every sending neuron and each of its synapses,
accumulate DWt into DSWt, commit the delta into the weight, and apply the
optional failure model.  `sendN` is the number of sending-layer neurons and
`failFlags` the per-synapse random failure outcomes ([] when failure is
off). -/
def Prjn.wtFmDWt (pj : Prjn) (p : SWtLimit) (sendN : ℕ) (failFlags : List Bool) :
    List Synapse :=
  (List.range sendN).foldl (fun syns si =>
    let nc := pj.sendConN.getD si 0
    let st := pj.sendConIdxStart.getD si 0
    (List.range nc).foldl (fun syns ci =>
      let i := st + ci
      let sy := syns.getD i default
      let sy := { sy with dswt := sy.dswt + sy.dwt }
      let sy := p.wtFmDWtSyn sy
      let sy := synComFail (failFlags.getD i false) sy
      syns.set i sy) syns) pj.syns

/-- Load a round of accumulated deltas into the synapses (the DWt values
produced by the learning pass before each commit). -/
def setDWts : List Synapse → List ℚ → List Synapse
  | [], _ => []
  | sy :: ss, [] => { sy with dwt := 0 } :: setDWts ss []
  | sy :: ss, d :: ds => { sy with dwt := d } :: setDWts ss ds

/-- Repeated commits: each round loads its accumulated deltas and commits
them via Prjn.WtFmDWt (failure model off). -/
def Prjn.commitRounds (pj : Prjn) (p : SWtLimit) (sendN : ℕ)
    (rounds : List (List ℚ)) : List Synapse :=
  rounds.foldl (fun syns ds => (pj.withSyns (setDWts syns ds)).wtFmDWt p sendN [])
    pj.syns

/-! Synaptic calcium passes: Prjn.SendSynCa and Prjn.RecvSynCa (prjn.go).
The kinase CaParams helpers (CurCa, FmCa) live in the kinase package of this
repository, which is not under src/, and are modelled from the spec. -/

/-- Neuron fields read by the synaptic calcium passes. -/
structure CaNeuron where
  spike : ℚ
  caSpkP : ℚ
  caSpkD : ℚ
  caSyn : ℚ
deriving DecidableEq

instance : Inhabited CaNeuron := ⟨⟨0, 0, 0, 0⟩⟩

/-- Kinase CaParams.  SpikeG and UpdtThr are read by the prjn.go passes; the
mDt / pDt / dDt integration rates parameterise the modelled cascade. -/
structure KinaseCa where
  spikeG : ℚ
  updtThr : ℚ
  mDt : ℚ
  pDt : ℚ
  dDt : ℚ
deriving DecidableEq

/-- FmCa of kinase CaParams.  Modelled from the spec: the kinase package is
not under src/.  Spec 4.4: the eligibility is "a cascade of three exponential
moving averages (fast, plus/short, minus/long) over a pre-post coincidence
signal": CaM integrates the coincidence signal, CaP integrates CaM, CaD
integrates CaP. -/
def KinaseCa.fmCa (kp : KinaseCa) (ca caM caP caD : ℚ) : ℚ × ℚ × ℚ :=
  let caM := caM + kp.mDt * (ca - caM)
  let caP := caP + kp.pDt * (caM - caP)
  let caD := caD + kp.dDt * (caP - caD)
  (caM, caP, caD)

/-- CurCa of kinase CaParams.  Modelled from the spec: "calcium state
advances only when the pre- or post-synaptic neuron spikes, using a
closed-form decay to fast-forward across the idle interval", the fast-forward
over k idle cycles being equal to k sequential single-cycle updates with a
zero coincidence signal; a negative update stamp means never updated. -/
def KinaseCa.curCa (kp : KinaseCa) (ctime utime : ℤ) (caM caP caD : ℚ) :
    ℚ × ℚ × ℚ :=
  if utime < 0 then (caM, caP, caD)
  else
    (ctime - utime).toNat.rec (caM, caP, caD)
      (fun _ s => kp.fmCa 0 s.1 s.2.1 s.2.2)

/-- The common per-synapse calcium advancement of SendSynCa / RecvSynCa in
prjn.go: stamp CaUpT with the current cycle, fast-forward the cascade to the
previous cycle from the old stamp, record the coincidence signal and
integrate it. -/
def advanceSynCa (kp : KinaseCa) (cycTot : ℤ) (caVal : ℚ) (sy : Synapse) :
    Synapse :=
  let c := kp.curCa (cycTot - 1) sy.caUpT sy.caM sy.caP sy.caD
  let c := kp.fmCa caVal c.1 c.2.1 c.2.2
  { sy with caUpT := cycTot, ca := caVal, caM := c.1, caP := c.2.1, caD := c.2.2 }

/-- The at-most-once-advanced relation between an original synapse array and
a current one: every synapse is either untouched or the result of exactly one
calcium advancement of its original state. -/
def synCaInv (kp : KinaseCa) (cycTot : ℤ) (orig cur : List Synapse) : Prop :=
  ∀ k : ℕ, cur.getD k default = orig.getD k default ∨
    ∃ ca, cur.getD k default = advanceSynCa kp cycTot ca (orig.getD k default)

/-- SendSynCa from prjn.go: go through the sending neurons, filtering on the
sending spike and the CaSpkP / CaSpkD update thresholds of both endpoints,
and advance each touched synapse unless its CaUpT stamp already equals the
current cycle.  `synSpkG` is slay.Params.Learn.CaSpk.SynSpkG.  Returns the
updated synapse array. -/
def Prjn.sendSynCa (pj : Prjn) (kp : KinaseCa) (synSpkG : ℚ) (cycTot : ℤ)
    (slay rlay : List CaNeuron) : List Synapse :=
  if pj.learnEnabled = false then pj.syns
  else
    let ssg := kp.spikeG * synSpkG
    (List.range slay.length).foldl (fun syns si =>
      let sn := slay.getD si default
      if sn.spike = 0 then syns
      else if sn.caSpkP < kp.updtThr ∧ sn.caSpkD < kp.updtThr then syns
      else
        let snCaSyn := ssg * sn.caSyn
        let nc := pj.sendConN.getD si 0
        let st := pj.sendConIdxStart.getD si 0
        (List.range nc).foldl (fun syns ci =>
          let ri := pj.sendConIdx.getD (st + ci) 0
          let rn := rlay.getD ri default
          if rn.caSpkP < kp.updtThr ∧ rn.caSpkD < kp.updtThr then syns
          else
            let sy := syns.getD (st + ci) default
            if sy.caUpT = cycTot then syns
            else syns.set (st + ci) (advanceSynCa kp cycTot (snCaSyn * rn.caSyn) sy))
          syns) pj.syns

/-- RecvSynCa from prjn.go: go through the receiving neurons, filtering on
the receiving spike and the update thresholds of both endpoints, and advance
each touched synapse (located through RecvSynIdx) unless its CaUpT stamp
already equals the current cycle.  Returns the updated synapse array. -/
def Prjn.recvSynCa (pj : Prjn) (kp : KinaseCa) (synSpkG : ℚ) (cycTot : ℤ)
    (slay rlay : List CaNeuron) : List Synapse :=
  if pj.learnEnabled = false then pj.syns
  else
    let ssg := kp.spikeG * synSpkG
    (List.range rlay.length).foldl (fun syns ri =>
      let rn := rlay.getD ri default
      if rn.spike = 0 then syns
      else if rn.caSpkP < kp.updtThr ∧ rn.caSpkD < kp.updtThr then syns
      else
        let rnCaSyn := ssg * rn.caSyn
        let nc := pj.recvConN.getD ri 0
        let st := pj.recvConIdxStart.getD ri 0
        (List.range nc).foldl (fun syns ci =>
          let rsi := pj.recvSynIdx.getD (st + ci) 0
          let si := pj.recvConIdx.getD (st + ci) 0
          let sn := slay.getD si default
          if sn.caSpkP < kp.updtThr ∧ sn.caSpkD < kp.updtThr then syns
          else
            let sy := syns.getD rsi default
            if sy.caUpT = cycTot then syns
            else syns.set rsi (advanceSynCa kp cycTot (sn.caSyn * rnCaSyn) sy))
          syns) pj.syns

/-- Both same-cycle calcium passes in their per-cycle order: the sender pass
followed by the receiver pass on its result. -/
def Prjn.synCaCycle (pj : Prjn) (kp : KinaseCa) (synSpkG : ℚ) (cycTot : ℤ)
    (slay rlay : List CaNeuron) : List Synapse :=
  (pj.withSyns (pj.sendSynCa kp synSpkG cycTot slay rlay)).recvSynCa kp synSpkG
    cycTot slay rlay

/-! Spike transmission: Prjn.SendSpike and Prjn.PrjnGatherSpikes (prjn.go),
with the ring index from the external emergent/ringidx library and the
per-cycle composition (gather before send) modelled from the spec control
flow. -/

/-- FIx from emergent/ringidx (external library): a fixed-length ring index
with zero position Zi and length Len. -/
structure FIx where
  len : ℕ
  zi : ℕ
deriving DecidableEq

/-- Idx from ringidx.FIx: absolute buffer position of logical position i. -/
def FIx.idx (fi : FIx) (i : ℕ) : ℕ := (fi.zi + i) % fi.len

/-- Shift from ringidx.FIx: advance the zero position by n. -/
def FIx.shift (fi : FIx) (n : ℕ) : FIx := { fi with zi := fi.idx n }

/-- PrjnGVals from prjntypes.go: the projection-level conductance values per
receiving neuron (raw input gathered this cycle, and the time-integrated
synaptic conductance). -/
structure PrjnGVals where
  gRaw : ℚ
  gSyn : ℚ
deriving DecidableEq

instance : Inhabited PrjnGVals := ⟨⟨0, 0⟩⟩

/-- Add a value into a list slot (the += writes into GBuf / PIBuf). -/
def listAddAt (l : List ℚ) (i : ℕ) (v : ℚ) : List ℚ :=
  l.set i (l.getD i 0 + v)

/-- The spike-transmission state of one projection, from Prjn (prjn.go):
ring buffers, ring index (Vals.Gidx), per-recv-neuron conductance values, and
the parameters read by SendSpike / PrjnGatherSpikes (GScale.Scale, Com.Delay,
Com.Inhib).  The receiving layer state it touches is carried alongside:
`pools` holds the FFsRaw accumulator of each Pool of the receiving layer and
geDt / giDt come from rlay.Params.Act.Dt. -/
structure SpikePrjn where
  scale : ℚ
  delay : ℕ
  inhib : Bool
  gidx : FIx
  gbuf : List ℚ
  pibuf : List ℚ
  pidxs : List ℕ
  sendConN : List ℕ
  sendConIdxStart : List ℕ
  sendConIdx : List ℕ
  synWt : List ℚ
  gvals : List PrjnGVals
  pools : List ℚ
  geDt : ℚ
  giDt : ℚ
deriving DecidableEq

/-- SendSpike from prjn.go: add scale*Wt of every synapse of the spiking
sending neuron into the GBuf slot (recv neuron, Gidx.Idx(delay)) -- the end
of the ring -- and, for non-inhibitory projections, into the corresponding
pool slot of PIBuf. -/
def SpikePrjn.sendSpike (pj : SpikePrjn) (sendIdx : ℕ) : SpikePrjn :=
  let delayBufSize := pj.delay + 1
  let currDelayIdx := pj.gidx.idx pj.delay
  let numCons := pj.sendConN.getD sendIdx 0
  let startIdx := pj.sendConIdxStart.getD sendIdx 0
  (List.range numCons).foldl (fun pj i =>
    let recvIdx := pj.sendConIdx.getD (startIdx + i) 0
    let sv := pj.scale * pj.synWt.getD (startIdx + i) 0
    let pj := { pj with gbuf := listAddAt pj.gbuf (recvIdx * delayBufSize + currDelayIdx) sv }
    if pj.inhib then pj
    else
      let pib := listAddAt pj.pibuf (pj.pidxs.getD recvIdx 0 * delayBufSize + currDelayIdx) sv
      { pj with pibuf := pib }) pj

/-- The per-receiver part of PrjnGatherSpikes: read and zero the current ring
slot into GRaw and integrate it into GSyn with the given integration
function. -/
def gatherGVals (sz zi : ℕ) (integ : ℚ → ℚ → ℚ)
    (st : List ℚ × List PrjnGVals) (ri : ℕ) : List ℚ × List PrjnGVals :=
  let bi := ri * sz + zi
  let gRaw := st.1.getD bi 0
  let gv := st.2.getD ri default
  (st.1.set bi 0, st.2.set ri { gRaw := gRaw, gSyn := integ gv.gSyn gRaw })

/-- PrjnGatherSpikes from prjn.go: each cycle, every receiving neuron reads
and zeroes its current ring-buffer slot into GRaw, integrating it into GSyn
(GiSynFmRaw for inhibitory projections, GeSynFmRaw otherwise); for
non-inhibitory projections the pooled PIBuf slots are drained into the
receiving pools first; finally the ring rotates by one. -/
def SpikePrjn.gatherSpikes (pj : SpikePrjn) : SpikePrjn :=
  let sz := pj.delay + 1
  let zi := pj.gidx.zi
  if pj.inhib then
    let r := (List.range pj.gvals.length).foldl
      (gatherGVals sz zi (fun syn raw => syn + raw - pj.giDt * syn))
      (pj.gbuf, pj.gvals)
    { pj with gbuf := r.1, gvals := r.2, gidx := pj.gidx.shift 1 }
  else
    let pp : List ℚ × List ℚ :=
      if pj.pools.length = 1 then
        (pj.pools.set 0 (pj.pools.getD 0 0 + pj.pibuf.getD zi 0), pj.pibuf.set zi 0)
      else
        (List.range pj.pools.length).foldl (fun st pi =>
          let bi := pi * sz + zi
          let sv := st.2.getD bi 0
          let pools := st.1.set pi (st.1.getD pi 0 + sv)
          let pools := pools.set 0 (pools.getD 0 0 + sv)
          (pools, st.2.set bi 0)) (pj.pools, pj.pibuf)
    let r := (List.range pj.gvals.length).foldl
      (gatherGVals sz zi (fun syn raw => syn + raw - pj.geDt * syn))
      (pj.gbuf, pj.gvals)
    { pj with pools := pp.1, pibuf := pp.2, gbuf := r.1, gvals := r.2, gidx := pj.gidx.shift 1 }

/-- One simulation cycle of the transmission machinery.  Modelled from the
spec control flow (the per-cycle orchestration lives in network.go / layer.go,
not under src/): "SpikeTransmission gather -> ... -> spike decision ->
SpikeTransmission send", so the projection gathers first and the spiking
senders of this cycle then send. -/
def SpikePrjn.cycle (pj : SpikePrjn) (spikers : List ℕ) : SpikePrjn :=
  spikers.foldl SpikePrjn.sendSpike pj.gatherSpikes

/-- Run the transmission for n cycles, cycle u taking the senders that spike
at cycle u. -/
def SpikePrjn.runCycles (pj : SpikePrjn) (spikeAt : ℕ → List ℕ) : ℕ → SpikePrjn
  | 0 => pj
  | n + 1 => ((pj.runCycles spikeAt n).cycle (spikeAt n))

/-- The raw conductance a receiving neuron sees at cycle u: its GRaw value
after cycle u's gather (sends do not touch GVals, so this is the GRaw field
after u+1 full cycles). -/
def SpikePrjn.gRawAt (pj : SpikePrjn) (spikeAt : ℕ → List ℕ) (ri u : ℕ) : ℚ :=
  ((pj.runCycles spikeAt (u + 1)).gvals.getD ri default).gRaw

/-! Ring-buffer sizing: Prjn.BuildGBuffs (prjn.go) and
NetworkBase.BuildPrjnGBuf (networkbase.go). -/

/-- The buffer-size state that Prjn.BuildGBuffs establishes. -/
structure PrjnBufSizes where
  gidxLen : ℕ
  gidxZi : ℕ
  gbufLen : ℕ
  pibufLen : ℕ
deriving DecidableEq

/-- BuildGBuffs from prjn.go: with dl = Com.Delay+1, the GBuf ring buffer is
(re)allocated to dl slots per receiving neuron (dl * #recv neurons in total)
and PIBuf to dl slots per receiving pool, unless the sizes are already
correct, in which case everything is left untouched. -/
def buildGBuffs (delay rlen npools : ℕ) (cur : PrjnBufSizes) : PrjnBufSizes :=
  let dl := delay + 1
  let gblen := dl * rlen
  if cur.gidxLen = dl ∧ cur.gbufLen = gblen then cur
  else { gidxLen := dl, gidxZi := 0, gbufLen := gblen, pibufLen := dl * npools }

/-- One layer as seen by NetworkBase.BuildPrjnGBuf: its neuron count and the
Com.MaxDelay value of each of its receiving projections. -/
structure GBufLayer where
  nneur : ℕ
  prjnMaxDelays : List ℕ
deriving DecidableEq

/-- The network-wide maximum delay computed by NetworkBase.BuildPrjnGBuf
(nt.MaxDelay): the maximum of Com.MaxDelay over every projection of every
layer. -/
def netMaxDelay (layers : List GBufLayer) : ℕ :=
  layers.foldl (fun m ly => ly.prjnMaxDelays.foldl Nat.max m) 0

/-- BuildPrjnGBuf from networkbase.go: with mxlen = nt.MaxDelay+1, every
receiving projection of every layer is assigned a GBuf slice of
(#layer neurons) * mxlen entries (and a GSyns slice of #layer neurons).
Returns the per-projection GBuf slice lengths, in network order. -/
def buildPrjnGBuf (layers : List GBufLayer) : List ℕ :=
  let mxlen := netMaxDelay layers + 1
  (layers.map (fun ly => ly.prjnMaxDelays.map (fun _ => ly.nneur * mxlen))).flatten

/-! Network-level weight loading: NetworkBase.ReadWtsJSON / SetWts
(networkbase.go).  The external weights.NetReadJSON parser result is an input
of the embedding (an Except value). -/

/-- One decoded layer of a weights file (emergent/weights). -/
structure WtsLayer where
  layer : String
  prjns : List WtsPrjn
deriving DecidableEq

/-- A decoded weights file (emergent/weights.Network). -/
structure WtsNetwork where
  network : String
  layers : List WtsLayer
deriving DecidableEq

/-- A layer of the network as seen by weight loading: its name and its
receiving projections. -/
structure NetLayer where
  name : String
  prjns : List Prjn
deriving DecidableEq

/-- The network state touched by weight loading. -/
structure NetworkB where
  nm : String
  layers : List NetLayer
deriving DecidableEq

/-- Apply decoded projections to a layer's receiving projections, in order.
Modelled from the spec: Layer.SetWts lives in layer.go, not under src/; per
the weight-persistence contract each per-projection record is applied to the
corresponding receiving projection. -/
def setWtsPrjns : List Prjn → List WtsPrjn → List Prjn
  | ps, [] => ps
  | [], _ => []
  | p :: ps, w :: ws => p.setWts w :: setWtsPrjns ps ws

/-- Layer-level SetWts (see setWtsPrjns). -/
def NetLayer.setWts (ly : NetLayer) (lw : WtsLayer) : NetLayer :=
  { ly with prjns := setWtsPrjns ly.prjns lw.prjns }

/-- SetWts from networkbase.go: take the decoded network name, then apply
each decoded layer to the layer of that name; a layer present in the file but
absent from the network is skipped with an error that is remembered (the
latest such error is returned) while the remaining layers still load. -/
def NetworkB.setWts (net : NetworkB) (nw : WtsNetwork) : Option String × NetworkB :=
  let nm := if nw.network ≠ "" then nw.network else net.nm
  let r := nw.layers.foldl (fun (st : Option String × List NetLayer) lw =>
    if (st.2.find? (fun ly => ly.name == lw.layer)).isSome then
      (st.1, st.2.map (fun ly => if ly.name == lw.layer then ly.setWts lw else ly))
    else (some ("Layer named: " ++ lw.layer ++ " not found"), st.2))
    (none, net.layers)
  (r.1, { nm := nm, layers := r.2 })

/-- ReadWtsJSON from networkbase.go: the file is first parsed in its entirety
into a temporary weights.Network structure (`parsed` is that external parse
result); a parse failure is returned to the caller before any weight of the
network is touched, and only a successful parse is passed on to SetWts. -/
def NetworkB.readWtsJSON (net : NetworkB) (parsed : Except String WtsNetwork) :
    Except String Unit × NetworkB :=
  match parsed with
  | Except.error e => (Except.error e, net)
  | Except.ok nw =>
    let r := net.setWts nw
    (match r.1 with
     | some e => Except.error e
     | none => Except.ok (), r.2)

/-! Build-time error accumulation: NetworkBase.Build (networkbase.go). -/

/-- One layer as seen by the Build error-handling loop: whether it is turned
off, and the outcome of its Layer.Build call (layer building itself lives in
layer.go, not under src/, so its error outcome is an input here). -/
structure BuildLayer where
  off : Bool
  buildErr : Option String
deriving DecidableEq

/-- The error-message accumulation of NetworkBase.Build: each non-off layer
whose Build call fails appends its message plus a newline to emsg; the loop
never stops early. -/
def buildEmsg (layers : List BuildLayer) : String :=
  layers.foldl (fun emsg ly =>
    if ly.off then emsg
    else
      match ly.buildErr with
      | some e => emsg ++ e ++ "\n"
      | none => emsg) ""

/-- The error returned by NetworkBase.Build: the accumulated message when it
is non-empty, nil otherwise. -/
def buildResult (layers : List BuildLayer) : Option String :=
  let emsg := buildEmsg layers
  if emsg ≠ "" then some emsg else none

/-- Declarative form of the accumulated build message: the concatenation of
the error messages (each newline-terminated) of every non-off layer, in
order.  Used to state that Build reports all failures rather than the first
one. -/
def buildMsgsDecl : List BuildLayer → String
  | [] => ""
  | ly :: t =>
    (if ly.off then ""
     else
       match ly.buildErr with
       | some e => e ++ "\n"
       | none => "") ++ buildMsgsDecl t

/-! Concrete transmission scenario for the delay-correctness claim: one
sending neuron fully connected to one receiving neuron (single pool),
excitatory projection with delay d, scale s and synaptic weight w. -/

/-- The one-sender one-receiver projection state with empty buffers and ring
position zi. -/
def spikeStAt (d : ℕ) (s w geDt giDt : ℚ) (zi : ℕ) : SpikePrjn :=
  { scale := s, delay := d, inhib := false, gidx := ⟨d + 1, zi⟩,
    gbuf := List.replicate (d + 1) 0, pibuf := List.replicate (d + 1) 0,
    pidxs := [0], sendConN := [1], sendConIdxStart := [0], sendConIdx := [0],
    synWt := [w], gvals := [⟨0, 0⟩], pools := [0], geDt := geDt,
    giDt := giDt }

/-- The state after the spike has been deposited into ring slot widx. -/
def spikeStLoaded (d : ℕ) (s w geDt giDt : ℚ) (widx zi : ℕ) : SpikePrjn :=
  { spikeStAt d s w geDt giDt zi with
    gbuf := (List.replicate (d + 1) 0).set widx (s * w),
    pibuf := (List.replicate (d + 1) 0).set widx (s * w) }

/-- The state right after the deposited spike has been gathered. -/
def spikeStDone (d : ℕ) (s w geDt giDt : ℚ) (zi : ℕ) : SpikePrjn :=
  { spikeStAt d s w geDt giDt zi with
    gvals := [⟨s * w, s * w⟩]
    pools := [s * w] }

/-- The spike schedule with a single sender spike at cycle t. -/
def oneSpikeAt (t : ℕ) : ℕ → List ℕ := fun n => if n = t then [0] else []

/-! Helper lemmas shared by the claim theorems. -/

/-- An invariant preserved by every step of a fold holds of its result. -/
theorem foldl_inv {α β : Type} (P : β → Prop) (f : β → α → β) (l : List α)
    (b : β) (h0 : P b) (hstep : ∀ x a, a ∈ l → P x → P (f x a)) :
    P (l.foldl f b) := by
  induction l generalizing b with
  | nil => exact h0
  | cons a t ih =>
    exact ih (f b a) (hstep b a (List.mem_cons_self a t) h0)
      (fun x a2 hm hx => hstep x a2 (List.mem_cons_of_mem a hm) hx)

theorem getD_set_ne {α : Type} {l : List α} {i k : ℕ} (v d : α) (h : i ≠ k) :
    (l.set i v).getD k d = l.getD k d := by
  simp [List.getD, List.getElem?_set_ne h]

theorem getD_set_self {α : Type} {l : List α} {k : ℕ} (v d : α)
    (h : k < l.length) : (l.set k v).getD k d = v := by
  simp [List.getD, List.getElem?_set_self, h]

theorem getD_of_le {α : Type} {l : List α} {k : ℕ} (d : α) (h : l.length ≤ k) :
    l.getD k d = d := by
  rw [List.getD, List.get?_eq_getElem?, List.getElem?_eq_none h, Option.getD_none]

theorem string_append_eq_empty {s t : String} (h : s ++ t = "") :
    s = "" ∧ t = "" := by
  have hl := congrArg String.length h
  rw [String.length_append] at hl
  have h0 : ("" : String).length = 0 := rfl
  rw [h0] at hl
  have hs : s.length = 0 := by omega
  have ht : t.length = 0 := by omega
  refine ⟨?_, ?_⟩
  · cases s with
    | mk data =>
      cases data with
      | nil => rfl
      | cons c tl => exact absurd hs (by simp [String.length, List.length])
  · cases t with
    | mk data =>
      cases data with
      | nil => rfl
      | cons c tl => exact absurd ht (by simp [String.length, List.length])

theorem string_newline_ne {e : String} : e ++ "\n" ≠ "" := by
  intro h
  have h2 := (string_append_eq_empty h).2
  exact absurd (congrArg String.length h2) (by simp [String.length])

theorem buildEmsg_eq_decl (layers : List BuildLayer) :
    buildEmsg layers = buildMsgsDecl layers := by
  have key : ∀ (l : List BuildLayer) (acc : String),
      l.foldl (fun emsg ly =>
        if ly.off then emsg
        else
          match ly.buildErr with
          | some e => emsg ++ e ++ "\n"
          | none => emsg) acc = acc ++ buildMsgsDecl l := by
    intro l
    induction l with
    | nil => intro acc; simp [buildMsgsDecl, String.append_empty]
    | cons ly t ih =>
      intro acc
      simp only [List.foldl_cons, buildMsgsDecl]
      rw [ih]
      by_cases hoff : ly.off
      · simp [hoff, String.append_assoc]
      · cases herr : ly.buildErr with
        | some e => simp [hoff, herr, String.append_assoc]
        | none => simp [hoff, herr, String.append_assoc]
  have h := key layers ""
  rw [buildEmsg, h, String.empty_append]

theorem buildMsgsDecl_empty_iff (layers : List BuildLayer) :
    buildMsgsDecl layers = "" ↔
      ∀ ly ∈ layers, ly.off = false → ly.buildErr = none := by
  induction layers with
  | nil => simp [buildMsgsDecl]
  | cons ly t ih =>
    simp only [buildMsgsDecl, List.mem_cons]
    constructor
    · intro h
      have hp := string_append_eq_empty h
      intro x hx hxoff
      rcases hx with hx | hx
      · subst hx
        by_cases hoff : x.off
        · rw [hoff] at hxoff; cases hxoff
        · cases herr : x.buildErr with
          | none => rfl
          | some e =>
            rw [if_neg hoff, herr] at hp
            exact absurd hp.1 string_newline_ne
      · exact (ih.mp hp.2) x hx hxoff
    · intro h
      have hhead : (if ly.off then ""
          else
            match ly.buildErr with
            | some e => e ++ "\n"
            | none => "") = "" := by
        by_cases hoff : ly.off
        · rw [if_pos hoff]
        · rw [h ly (Or.inl rfl) (by simp [hoff]), if_neg hoff]
      rw [hhead, String.empty_append]
      exact ih.mpr (fun x hx hxoff => h x (Or.inr hx) hxoff)

/-- Claim C8: NetworkBase.Build accumulates the build errors of all (non-off)
layers into one combined error returned at the end -- the accumulated message
is the in-order concatenation of every failing layer's message -- and it
returns nil exactly when no layer produced an error. -/
theorem build_accumulates_all_layer_errors (layers : List BuildLayer) :
    (buildResult layers = none ↔
      ∀ ly ∈ layers, ly.off = false → ly.buildErr = none) ∧
    buildResult layers =
      (if buildMsgsDecl layers = "" then none else some (buildMsgsDecl layers)) := by
  have hm := buildEmsg_eq_decl layers
  constructor
  · rw [buildResult, ← buildMsgsDecl_empty_iff layers, ← hm]
    by_cases h : buildEmsg layers = ""
    · simp [h]
    · simp [h]
  · rw [buildResult, hm]
    by_cases h : buildMsgsDecl layers = ""
    · simp [h]
    · simp [h]

/-- Claim C7: a failed parse in NetworkBase.ReadWtsJSON is returned to the
caller with the network state untouched, and more generally the network can
only be mutated by a successful parse (the file is read into a separate
temporary structure before any weight is set). -/
theorem readWtsJSON_parse_error_no_mutation (net : NetworkB) (e : String) :
    net.readWtsJSON (Except.error e) = (Except.error e, net) ∧
    ∀ parsed : Except String WtsNetwork,
      (net.readWtsJSON parsed).2 ≠ net → ∃ nw, parsed = Except.ok nw := by
  constructor
  · rfl
  · intro parsed hne
    cases parsed with
    | error e2 => exact absurd rfl hne
    | ok nw => exact ⟨nw, rfl⟩

/-- Claim C10: the synapse-variable query interface is total and signals
absence with NaN (modelled as Option.none): SynVal1D yields NaN on any
out-of-range variable or synapse index; SynVal yields NaN whenever SynIdx
reports -1; and SynIdx reports -1 exactly when the queried (sender, receiver)
pair has no synapse (the sender is out of range or none of its connections
reaches the receiver). -/
theorem synapse_query_total_nan (pj : Prjn) (varIdx synIdx : ℤ)
    (varNm : String) (sidx ridx : ℕ) :
    (varIdx < 0 ∨ (SynapseVars.length : ℤ) ≤ varIdx ∨ synIdx < 0 ∨
        (pj.syns.length : ℤ) ≤ synIdx →
      pj.synVal1D varIdx synIdx = none) ∧
    (pj.synIdx sidx ridx = -1 → pj.synVal varNm sidx ridx = none) ∧
    (pj.synIdx sidx ridx = -1 ↔
      pj.sendConN.length ≤ sidx ∨
        ∀ ci < pj.sendConN.getD sidx 0,
          pj.sendConIdx.getD (pj.sendConIdxStart.getD sidx 0 + ci) 0 ≠ ridx) := by
  refine ⟨?_, ?_, ?_⟩
  · intro h
    unfold Prjn.synVal1D
    rcases h with h | h | h | h
    · split
      · rfl
      · rw [if_pos (Or.inl h)]
    · split
      · rfl
      · rw [if_pos (Or.inr h)]
    · rw [if_pos (Or.inl h)]
    · rw [if_pos (Or.inr h)]
  · intro h
    unfold Prjn.synVal
    cases hv : SynapseVarByName varNm with
    | error e => rfl
    | ok vidx =>
      rw [h]
      norm_num [Prjn.synVal1D]
  · unfold Prjn.synIdx
    by_cases hs : pj.sendConN.length ≤ sidx
    · rw [if_pos hs]
      simp [hs]
    · rw [if_neg hs]
      constructor
      · intro h
        right
        intro ci hci heq
        cases hf : (List.range (pj.sendConN.getD sidx 0)).find?
            (fun ci => pj.sendConIdx.getD (pj.sendConIdxStart.getD sidx 0 + ci) 0 == ridx) with
        | some cif =>
          rw [hf] at h
          have h2 : ((pj.sendConIdxStart.getD sidx 0 + cif : ℕ) : ℤ) = -1 := h
          omega
        | none =>
          rw [List.find?_eq_none] at hf
          exact hf ci (List.mem_range.mpr hci) (by rw [beq_iff_eq]; exact heq)
      · intro h
        rcases h with h | h
        · exact absurd h hs
        · have hf : (List.range (pj.sendConN.getD sidx 0)).find?
              (fun ci => pj.sendConIdx.getD (pj.sendConIdxStart.getD sidx 0 + ci) 0 == ridx) = none := by
            rw [List.find?_eq_none]
            intro ci hm hp
            exact h ci (List.mem_range.mp hm) (by rwa [beq_iff_eq] at hp)
          rw [hf]

/-- Witness for synapse_query_total_nan at a concrete projection: a one
synapse projection queried out of range and at an unconnected pair. -/
theorem synapse_query_total_nan_witness :
    (Prjn.synVal1D ⟨[1], [0], [0], 1, [1], [0], [0], [0], [default], true, 1⟩ 0 5 = none) ∧
    (Prjn.synVal ⟨[1], [0], [0], 1, [1], [0], [0], [0], [default], true, 1⟩ "Wt" 0 7 = none) := by
  have h := synapse_query_total_nan
    ⟨[1], [0], [0], 1, [1], [0], [0], [0], [default], true, 1⟩ 0 5 "Wt" 0 7
  exact ⟨h.1 (by norm_num), h.2.1 (by decide)⟩

theorem geNoiseUpd_nonneg (ac : ActParams) (nrn : Neuron) (rnd : ℚ)
    (h : ac.noise.isOn = false ∨ ac.noise.ge = 0 ∨
      (0 ≤ nrn.geNoise ∧ 0 ≤ ac.noise.ge ∧ ac.dt.geDt ≤ 1))
    (hge : 0 ≤ nrn.ge) : 0 ≤ (ac.geNoiseUpd nrn rnd).ge := by
  unfold ActParams.geNoiseUpd
  split
  · exact hge
  · rename_i hcond
    push_neg at hcond
    rcases h with h | h | h
    · exact absurd h hcond.1
    · exact absurd h hcond.2
    · have hpge : 0 ≤ (ac.noise.pGe nrn.geNoiseP rnd).2 := by
        unfold SpikeNoiseParams.pGe
        dsimp only
        split
        · exact h.2.1
        · exact le_refl 0
      have hn : 0 ≤ ac.dt.geSynFmRaw nrn.geNoise (ac.noise.pGe nrn.geNoiseP rnd).2 := by
        unfold DtParams.geSynFmRaw
        nlinarith [h.1, h.2.2, hpge]
      dsimp only
      positivity

theorem nonneg_clip (g : ℚ) : 0 ≤ if g < 0 then 0 else g := by
  split
  · exact le_refl 0
  · rename_i h
    exact not_lt.mp h

theorem geFmSynPre_ge_nonneg (ac : ActParams) (nrn : Neuron) (geSyn geExt : ℚ) :
    0 ≤ (ac.geFmSynPre nrn geSyn geExt).ge := by
  unfold ActParams.geFmSynPre
  dsimp only
  exact nonneg_clip _

theorem geFmSynPre_geNoise (ac : ActParams) (nrn : Neuron) (geSyn geExt : ℚ) :
    (ac.geFmSynPre nrn geSyn geExt).geNoise = nrn.geNoise := by
  unfold ActParams.geFmSynPre
  dsimp only
  split_ifs <;> rfl

/-- Counterexample to claim C9 as stated: GeFmSyn clamps Ge to zero before
the noise term is added, so with noise active and a negative stored GeNoise
state the resulting Ge of this concrete call is negative. -/
theorem geFmSyn_negative_with_noise_cx :
    (ActParams.geFmSyn
      { spike := ⟨0, 0, 0, 0, false, 0, 0, 0⟩, dend := ⟨0, 0⟩,
        dt := ⟨0, 0, 0, 0, 0, 0, 1/5, 0⟩, gbar := ⟨0, 0, 0, 0⟩,
        erev := ⟨0, 0, 0, 0⟩, clamp := ⟨false, 0⟩,
        noise := ⟨true, 1, 0, 1/2, 0⟩, vmRange := ⟨0, 0⟩, attn := ⟨false, 0⟩ }
      ⟨0, 0, 0, 0, 0, 0, 0, 0, 0, 0, false, 0, -8, 1, 0, 0, 0⟩ 0 0 1).ge < 0 := by
  norm_num [ActParams.geFmSyn, ActParams.geFmSynPre, ActParams.geNoiseUpd,
    SpikeNoiseParams.pGe, DtParams.geSynFmRaw, AttnParams.modVal]

/-- Claim C9 as amended: GeFmSyn clamps a would-be negative Ge to zero and
GiFmSyn returns zero for a negative inhibitory synaptic conductance; the
returned Gi is non-negative for all inputs, and the resulting Ge is
non-negative whenever the Ge noise term is inactive or the stored noise state
is itself non-negative (with a non-negative noise amplitude and GeDt at most
one, as the source parameter bounds guarantee). -/
theorem ge_gi_clamped_nonneg (ac : ActParams) (nrn : Neuron)
    (geSyn geExt giSyn rnd rnd2 : ℚ)
    (h : ac.noise.isOn = false ∨ ac.noise.ge = 0 ∨
      (0 ≤ nrn.geNoise ∧ 0 ≤ ac.noise.ge ∧ ac.dt.geDt ≤ 1)) :
    0 ≤ (ac.geFmSyn nrn geSyn geExt rnd).ge ∧
    0 ≤ (ac.giFmSyn nrn giSyn rnd2).2 := by
  constructor
  · unfold ActParams.geFmSyn
    apply geNoiseUpd_nonneg
    · rcases h with h | h | h
      · exact Or.inl h
      · exact Or.inr (Or.inl h)
      · exact Or.inr (Or.inr ⟨by rw [geFmSynPre_geNoise]; exact h.1, h.2⟩)
    · exact geFmSynPre_ge_nonneg ac nrn geSyn geExt
  · unfold ActParams.giFmSyn
    dsimp only
    exact nonneg_clip _

/-- Witness for ge_gi_clamped_nonneg with noise off at a concrete input. -/
theorem ge_gi_clamped_nonneg_witness :
    0 ≤ (ActParams.geFmSyn
      { spike := ⟨0, 0, 0, 0, false, 0, 0, 0⟩, dend := ⟨0, 0⟩,
        dt := ⟨0, 0, 0, 0, 0, 0, 0, 0⟩, gbar := ⟨0, 0, 0, 0⟩,
        erev := ⟨0, 0, 0, 0⟩, clamp := ⟨false, 0⟩,
        noise := ⟨false, 0, 0, 0, 0⟩, vmRange := ⟨0, 0⟩, attn := ⟨false, 0⟩ }
      default (-3) 0 1).ge ∧
    0 ≤ (ActParams.giFmSyn
      { spike := ⟨0, 0, 0, 0, false, 0, 0, 0⟩, dend := ⟨0, 0⟩,
        dt := ⟨0, 0, 0, 0, 0, 0, 0, 0⟩, gbar := ⟨0, 0, 0, 0⟩,
        erev := ⟨0, 0, 0, 0⟩, clamp := ⟨false, 0⟩,
        noise := ⟨false, 0, 0, 0, 0⟩, vmRange := ⟨0, 0⟩, attn := ⟨false, 0⟩ }
      default (-3) 1).2 :=
  ge_gi_clamped_nonneg _ default (-3) 0 (-3) 1 1 (Or.inl rfl)

theorem clipVal_mem (mr : F32Range) (v : ℚ) (h : mr.min ≤ mr.max) :
    mr.min ≤ mr.clipVal v ∧ mr.clipVal v ≤ mr.max := by
  unfold F32Range.clipVal
  split_ifs with h1 h2
  · exact ⟨le_refl _, h⟩
  · exact ⟨h, le_refl _⟩
  · exact ⟨not_lt.mp h1, not_lt.mp h2⟩

theorem foldl_const_prop {α β : Type} (f : α → α) (P : α → Prop)
    (hf : ∀ a, P (f a)) :
    ∀ (l : List β) (x : α), l ≠ [] → P (l.foldl (fun a _ => f a) x)
  | [], _, h => absurd rfl h
  | [_], x, _ => hf x
  | _ :: c :: t, x, _ => foldl_const_prop f P hf (c :: t) (f x) (by simp)

theorem vmInteg_mem (ac : ActParams) (vm dt ge gl gi gk : ℚ)
    (hsteps : 1 ≤ ac.dt.vmSteps) (h : ac.vmRange.min ≤ ac.vmRange.max) :
    ac.vmRange.min ≤ (ac.vmInteg vm dt ge gl gi gk).1 ∧
    (ac.vmInteg vm dt ge gl gi gk).1 ≤ ac.vmRange.max := by
  unfold ActParams.vmInteg
  dsimp only
  apply foldl_const_prop (ac.vmIntegStep (dt * ac.dt.dtStep) ge gl gi gk)
    (fun p => ac.vmRange.min ≤ p.1 ∧ p.1 ≤ ac.vmRange.max)
  · intro a
    exact clipVal_mem ac.vmRange _ h
  · intro hnil
    rw [List.range_eq_nil] at hnil
    omega

/-- Claim C5: outside the post-spike refractory window, VmFmG integrates Vm
over VmSteps clipped sub-steps (plus the optional clipped exponential-current
step), so the resulting Vm lies in the configured VmRange; inside the window
(0 <= ISI < Tr) the channel conductances are ignored and Vm decays toward the
reset value VmR -- by RDt*(VmR-Vm) per cycle and exactly to VmR on the final
refractory cycle (truncated ISI = Tr-1) -- independently of Ge, Gi and Gk.
VmSteps >= 1 is enforced by DtParams.Update in the source. -/
theorem vmFmG_refractory_decay_and_clip (ac : ActParams) (nrn : Neuron)
    (hsteps : 1 ≤ ac.dt.vmSteps) (hrange : ac.vmRange.min ≤ ac.vmRange.max) :
    (¬ ac.vmRefract nrn.isi →
      ac.vmRange.min ≤ (ac.vmFmG nrn).vm ∧ (ac.vmFmG nrn).vm ≤ ac.vmRange.max) ∧
    (ac.vmRefract nrn.isi →
      (ac.vmFmG nrn).vm =
        (if Int.floor nrn.isi = ac.spike.tr - 1 then ac.spike.vmR
         else nrn.vm + ac.spike.rDt * (ac.spike.vmR - nrn.vm)) ∧
      ∀ ge2 gi2 gk2 : ℚ,
        (ac.vmFmG { nrn with ge := ge2, gi := gi2, gk := gk2 }).vm =
          (ac.vmFmG nrn).vm) := by
  have hvm : ∀ m : Neuron, ac.vmRefract m.isi →
      (ac.vmFmG m).vm =
        (if Int.floor m.isi = ac.spike.tr - 1 then ac.spike.vmR
         else m.vm + ac.spike.rDt * (ac.spike.vmR - m.vm)) := by
    intro m hm
    unfold ActParams.vmFmG
    dsimp only
    rw [if_pos hm]
    split_ifs with hfl
    · ring
    · ring
  constructor
  · intro hnr
    unfold ActParams.vmFmG
    dsimp only
    rw [if_neg hnr]
    by_cases hexp : ac.spike.exp = true
    · rw [if_pos hexp]
      exact clipVal_mem ac.vmRange _ hrange
    · rw [if_neg hexp]
      exact vmInteg_mem ac nrn.vm ac.dt.vmDt (nrn.ge * ac.gbar.e) 1
        (nrn.gi * ac.gbar.i) (nrn.gk * ac.gbar.k) hsteps hrange
  · intro hr
    refine ⟨hvm nrn hr, ?_⟩
    intro ge2 gi2 gk2
    rw [hvm nrn hr, hvm { nrn with ge := ge2, gi := gi2, gk := gk2 } hr]

/-- Witness for vmFmG_refractory_decay_and_clip: the default-like parameters
at a refractory neuron state (ISI = 1, Tr = 3). -/
theorem vmFmG_refractory_decay_and_clip_witness :
    (ActParams.vmFmG
      { spike := ⟨0, 3, 3, 0, false, 0, 0, 2⟩, dend := ⟨0, 0⟩,
        dt := ⟨1, 1, 2, 1, 1, 1, 0, 0⟩, gbar := ⟨1, 1, 1, 1⟩,
        erev := ⟨1, 0, 0, 0⟩, clamp := ⟨false, 0⟩,
        noise := ⟨false, 0, 0, 0, 0⟩, vmRange := ⟨0, 1⟩, attn := ⟨false, 0⟩ }
      ⟨0, 1, 7, 0, 0, 0, 0, 0, 0, 0, false, 0, 0, 0, 0, 0, 0⟩).vm =
      7 + 2 * (3 - 7) := by
  have h := vmFmG_refractory_decay_and_clip
    { spike := ⟨0, 3, 3, 0, false, 0, 0, 2⟩, dend := ⟨0, 0⟩,
      dt := ⟨1, 1, 2, 1, 1, 1, 0, 0⟩, gbar := ⟨1, 1, 1, 1⟩,
      erev := ⟨1, 0, 0, 0⟩, clamp := ⟨false, 0⟩,
      noise := ⟨false, 0, 0, 0, 0⟩, vmRange := ⟨0, 1⟩, attn := ⟨false, 0⟩ }
    ⟨0, 1, 7, 0, 0, 0, 0, 0, 0, 0, false, 0, 0, 0, 0, 0, 0⟩ (by norm_num) (by norm_num)
  have h2 := (h.2 (by constructor <;> norm_num)).1
  rw [h2]
  norm_num

theorem wtFmDWtSyn_wt_mem (p : SWtLimit) (sy : Synapse) (hlo : p.lo ≤ p.hi)
    (h : p.lo ≤ sy.wt ∧ sy.wt ≤ p.hi) :
    p.lo ≤ (p.wtFmDWtSyn sy).wt ∧ (p.wtFmDWtSyn sy).wt ≤ p.hi := by
  unfold SWtLimit.wtFmDWtSyn
  dsimp only
  split
  · exact h
  · dsimp only
    split_ifs <;> constructor <;> linarith [h.1, h.2]

theorem foldl_mem_inv {α : Type} (Q : Synapse → Prop)
    (f : List Synapse → α → List Synapse) (l : List α) (b : List Synapse)
    (h0 : ∀ sy ∈ b, Q sy)
    (hstep : ∀ x a, a ∈ l → (∀ sy ∈ x, Q sy) → ∀ sy ∈ f x a, Q sy) :
    ∀ sy ∈ l.foldl f b, Q sy :=
  foldl_inv (fun x => ∀ sy ∈ x, Q sy) f l b h0 hstep

theorem wtInv_set {p : SWtLimit} {syns : List Synapse} {i : ℕ} {v : Synapse}
    (hin : ∀ sy ∈ syns, p.lo ≤ sy.wt ∧ sy.wt ≤ p.hi)
    (hv : p.lo ≤ v.wt ∧ v.wt ≤ p.hi) :
    ∀ sy ∈ syns.set i v, p.lo ≤ sy.wt ∧ sy.wt ≤ p.hi := by
  intro sy hm
  rcases List.mem_or_eq_of_mem_set hm with hm | hm
  · exact hin sy hm
  · rw [hm]
    exact hv

theorem wtFmDWt_preserves_bounds (pj : Prjn) (p : SWtLimit) (sendN : ℕ)
    (hlo : p.lo ≤ p.hi)
    (hin : ∀ sy ∈ pj.syns, p.lo ≤ sy.wt ∧ sy.wt ≤ p.hi) :
    ∀ sy ∈ pj.wtFmDWt p sendN [], p.lo ≤ sy.wt ∧ sy.wt ≤ p.hi := by
  unfold Prjn.wtFmDWt
  apply foldl_mem_inv (fun sy => p.lo ≤ sy.wt ∧ sy.wt ≤ p.hi) _ _ _ hin
  intro syns si _ hsyns
  apply foldl_mem_inv (fun sy => p.lo ≤ sy.wt ∧ sy.wt ≤ p.hi) _ _ _ hsyns
  intro syns2 ci _ hsyns2
  dsimp only
  by_cases hi : pj.sendConIdxStart.getD si 0 + ci < syns2.length
  · apply wtInv_set hsyns2
    have hdg : syns2.getD (pj.sendConIdxStart.getD si 0 + ci) default ∈ syns2 := by
      rw [List.getD_eq_getElem syns2 default hi]
      exact List.getElem_mem hi
    have hold := hsyns2 _ hdg
    have hmid := wtFmDWtSyn_wt_mem p
      { syns2.getD (pj.sendConIdxStart.getD si 0 + ci) default with
        dswt := (syns2.getD (pj.sendConIdxStart.getD si 0 + ci) default).dswt +
          (syns2.getD (pj.sendConIdxStart.getD si 0 + ci) default).dwt }
      hlo hold
    simpa [synComFail] using hmid
  · rw [List.set_eq_of_length_le (by omega)]
    exact hsyns2

theorem setDWts_wt : ∀ (syns : List Synapse) (ds : List ℚ),
    ∀ sy2 ∈ setDWts syns ds, ∃ sy ∈ syns, sy2.wt = sy.wt
  | [], ds => by simp [setDWts]
  | sy :: ss, [] => by
    intro sy2 hm
    rcases List.mem_cons.mp hm with hm | hm
    · exact ⟨sy, List.mem_cons_self sy ss, by rw [hm]⟩
    · obtain ⟨sy3, hm3, he⟩ := setDWts_wt ss [] sy2 hm
      exact ⟨sy3, List.mem_cons_of_mem sy hm3, he⟩
  | sy :: ss, d :: ds => by
    intro sy2 hm
    rcases List.mem_cons.mp hm with hm | hm
    · exact ⟨sy, List.mem_cons_self sy ss, by rw [hm]⟩
    · obtain ⟨sy3, hm3, he⟩ := setDWts_wt ss ds sy2 hm
      exact ⟨sy3, List.mem_cons_of_mem sy hm3, he⟩

/-- Claim C4: for any in-range initial weights and any sequence of rounds of
accumulated DWt deltas, repeated commits via Prjn.WtFmDWt keep every
synapse's committed weight within the configured [lo, hi] bounds (the commit
itself is spec-modelled, learn.go being absent from src/; the stochastic
failure model is off, its PFail = 0 default). -/
theorem wtFmDWt_weight_bounds (pj : Prjn) (p : SWtLimit) (sendN : ℕ)
    (rounds : List (List ℚ)) (hlo : p.lo ≤ p.hi)
    (hin : ∀ sy ∈ pj.syns, p.lo ≤ sy.wt ∧ sy.wt ≤ p.hi) :
    ∀ sy ∈ pj.commitRounds p sendN rounds, p.lo ≤ sy.wt ∧ sy.wt ≤ p.hi := by
  unfold Prjn.commitRounds
  apply foldl_mem_inv (fun sy => p.lo ≤ sy.wt ∧ sy.wt ≤ p.hi) _ _ _ hin
  intro syns ds _ hsyns
  apply wtFmDWt_preserves_bounds (pj.withSyns (setDWts syns ds)) p sendN hlo
  intro sy hm
  obtain ⟨sy2, hm2, he⟩ := setDWts_wt syns ds sy hm
  rw [he]
  exact hsyns sy2 hm2

/-- Witness for wtFmDWt_weight_bounds at a concrete projection. -/
theorem wtFmDWt_weight_bounds_witness :
    (0 : ℚ) ≤ (⟨-1, 1/2, 0, 0, 0, 0, 0, 0, 0, 0, 0, 0⟩ : Synapse).wt ∧
    (⟨-1, 1/2, 0, 0, 0, 0, 0, 0, 0, 0, 0, 0⟩ : Synapse).wt ≤ 1 := by
  have h := wtFmDWt_weight_bounds
    ⟨[1], [0], [0], 1, [1], [0], [0], [0],
      [⟨-1, 1/2, 0, 0, 0, 0, 0, 0, 0, 0, 0, 0⟩], true, 1⟩
    ⟨0, 1⟩ 1 [] (by norm_num)
    (by
      intro sy hm
      rw [List.mem_singleton] at hm
      rw [hm]
      norm_num)
  exact h ⟨-1, 1/2, 0, 0, 0, 0, 0, 0, 0, 0, 0, 0⟩ (List.mem_singleton.mpr rfl)

theorem synCaInv_set_advance (kp : KinaseCa) (cycTot : ℤ)
    {orig cur : List Synapse} (i : ℕ) (ca : ℚ)
    (hinv : synCaInv kp cycTot orig cur)
    (hguard : ¬ (cur.getD i default).caUpT = cycTot) :
    synCaInv kp cycTot orig
      (cur.set i (advanceSynCa kp cycTot ca (cur.getD i default))) := by
  intro k
  by_cases hik : i = k
  · subst hik
    by_cases hlen : i < cur.length
    · rw [getD_set_self _ _ hlen]
      rcases hinv i with h | ⟨ca2, h⟩
      · rw [h]
        exact Or.inr ⟨ca, rfl⟩
      · exfalso
        apply hguard
        rw [h]
        rfl
    · rw [List.set_eq_of_length_le (by omega)]
      exact hinv i
  · rw [getD_set_ne _ _ hik]
    exact hinv k

theorem sendSynCa_pres (pj : Prjn) (kp : KinaseCa) (g : ℚ) (cycTot : ℤ)
    (slay rlay : List CaNeuron) (orig : List Synapse)
    (h : synCaInv kp cycTot orig pj.syns) :
    synCaInv kp cycTot orig (pj.sendSynCa kp g cycTot slay rlay) := by
  unfold Prjn.sendSynCa
  split
  · exact h
  · apply foldl_inv (synCaInv kp cycTot orig) _ _ _ h
    intro x si _ hx
    dsimp only
    split
    · exact hx
    · split
      · exact hx
      · apply foldl_inv (synCaInv kp cycTot orig) _ _ _ hx
        intro y ci _ hy
        dsimp only
        split
        · exact hy
        · split
          · exact hy
          · rename_i hguard
            exact synCaInv_set_advance kp cycTot _ _ hy hguard

theorem recvSynCa_pres (pj : Prjn) (kp : KinaseCa) (g : ℚ) (cycTot : ℤ)
    (slay rlay : List CaNeuron) (orig : List Synapse)
    (h : synCaInv kp cycTot orig pj.syns) :
    synCaInv kp cycTot orig (pj.recvSynCa kp g cycTot slay rlay) := by
  unfold Prjn.recvSynCa
  split
  · exact h
  · apply foldl_inv (synCaInv kp cycTot orig) _ _ _ h
    intro x ri _ hx
    dsimp only
    split
    · exact hx
    · split
      · exact hx
      · apply foldl_inv (synCaInv kp cycTot orig) _ _ _ hx
        intro y ci _ hy
        dsimp only
        split
        · exact hy
        · split
          · exact hy
          · rename_i hguard
            exact synCaInv_set_advance kp cycTot _ _ hy hguard

/-- Claim C3: over one cycle's sender pass followed by the receiver pass, the
calcium cascade of every synapse is advanced at most once: each synapse ends
either untouched or as exactly one advancement of its original state, the
CaUpT stamp (set on advancement, checked before every advancement) blocking a
second update of the same synapse in the same cycle. -/
theorem synCa_advanced_at_most_once (pj : Prjn) (kp : KinaseCa) (g : ℚ)
    (cycTot : ℤ) (slay rlay : List CaNeuron) (k : ℕ) :
    (pj.synCaCycle kp g cycTot slay rlay).getD k default =
        pj.syns.getD k default ∨
    ∃ ca, (pj.synCaCycle kp g cycTot slay rlay).getD k default =
        advanceSynCa kp cycTot ca (pj.syns.getD k default) := by
  have h1 : synCaInv kp cycTot pj.syns (pj.sendSynCa kp g cycTot slay rlay) :=
    sendSynCa_pres pj kp g cycTot slay rlay pj.syns (fun _ => Or.inl rfl)
  have h2 := recvSynCa_pres (pj.withSyns (pj.sendSynCa kp g cycTot slay rlay))
    kp g cycTot slay rlay pj.syns h1
  exact h2 k

/-- Counterexample to claim C2 as stated: in a network whose first layer (one
neuron) is fed by a delay-1 projection and whose second layer by a delay-3
projection, NetworkBase.BuildPrjnGBuf sizes the first projection's buffer by
the network-wide maximum delay (4 slots), not by (#recv neurons) x (delay+1)
= 2. -/
theorem buildPrjnGBuf_network_max_cx :
    (buildPrjnGBuf [⟨1, [1]⟩, ⟨1, [3]⟩]).getD 0 0 ≠ 1 * (1 + 1) := by
  decide

/-- Claim C2 as amended: Prjn.BuildGBuffs sizes each projection's ring buffer
as (#recv neurons) x (that projection's own delay + 1) slots (with ring length
delay+1), while NetworkBase.BuildPrjnGBuf gives every projection of every
layer a buffer of (#layer neurons) x (network-wide max delay + 1) slots -- a
ring length uniform across the whole network, not the per-layer maximum. -/
theorem gbuf_sizing (delay rlen npools : ℕ) (cur : PrjnBufSizes)
    (layers : List GBufLayer) :
    (buildGBuffs delay rlen npools cur).gbufLen = (delay + 1) * rlen ∧
    (buildGBuffs delay rlen npools cur).gidxLen = delay + 1 ∧
    ∀ x ∈ buildPrjnGBuf layers,
      ∃ ly ∈ layers, x = ly.nneur * (netMaxDelay layers + 1) := by
  refine ⟨?_, ?_, ?_⟩
  · unfold buildGBuffs
    dsimp only
    split
    · rename_i hc
      exact hc.2
    · rfl
  · unfold buildGBuffs
    dsimp only
    split
    · rename_i hc
      exact hc.1
    · rfl
  · intro x hx
    unfold buildPrjnGBuf at hx
    rw [List.mem_flatten] at hx
    obtain ⟨s, hs, hxs⟩ := hx
    rw [List.mem_map] at hs
    obtain ⟨ly, hly, hfs⟩ := hs
    rw [← hfs] at hxs
    rw [List.mem_map] at hxs
    obtain ⟨d, _, hd⟩ := hxs
    exact ⟨ly, hly, hd.symm⟩

/-- Witness for gbuf_sizing at concrete sizes. -/
theorem gbuf_sizing_witness :
    (buildGBuffs 1 3 1 ⟨0, 0, 0, 0⟩).gbufLen = (1 + 1) * 3 ∧
    ∃ ly ∈ [(⟨2, [1]⟩ : GBufLayer)],
      4 = ly.nneur * (netMaxDelay [(⟨2, [1]⟩ : GBufLayer)] + 1) := by
  refine ⟨(gbuf_sizing 1 3 1 ⟨0, 0, 0, 0⟩ []).1, ?_⟩
  exact (gbuf_sizing 1 3 1 ⟨0, 0, 0, 0⟩ [⟨2, [1]⟩]).2.2 4 (by decide)

theorem getD_map_range {α : Type} (n : ℕ) (f : ℕ → α) (j : ℕ) (d : α)
    (h : j < n) : ((List.range n).map f).getD j d = f j := by
  have hlen : j < ((List.range n).map f).length := by simp [h]
  rw [List.getD_eq_getElem _ _ hlen, List.getElem_map, List.getElem_range]

theorem synIdx_congr {pj pjx : Prjn} (h1 : pjx.sendConN = pj.sendConN)
    (h2 : pjx.sendConIdxStart = pj.sendConIdxStart)
    (h3 : pjx.sendConIdx = pj.sendConIdx) (s r : ℕ) :
    pjx.synIdx s r = pj.synIdx s r := by
  unfold Prjn.synIdx
  rw [h1, h2, h3]

theorem setSynVal_swt_eq (pjx : Prjn) (s r k : ℕ) (v : ℚ)
    (hk : pjx.synIdx s r = (k : ℤ)) (hlen : k < pjx.syns.length) :
    pjx.setSynVal "SWt" s r v =
      pjx.withSyns (pjx.syns.set k
        { pjx.syns.getD k default with swt := v }) := by
  unfold Prjn.setSynVal
  rw [show SynapseVarByName "SWt" = Except.ok 2 from rfl]
  dsimp only
  rw [hk]
  rw [if_neg (by push_neg; omega)]
  rw [if_neg (by decide)]
  rfl

theorem setSynVal_wt_eq (pjx : Prjn) (s r k : ℕ) (v : ℚ)
    (hk : pjx.synIdx s r = (k : ℤ)) (hlen : k < pjx.syns.length) :
    pjx.setSynVal "Wt" s r v =
      pjx.withSyns (pjx.syns.set k
        (let sy1 : Synapse := { pjx.syns.getD k default with wt := v }
         let sy2 : Synapse := if sy1.swt = 0 then { sy1 with swt := sy1.wt } else sy1
         { sy2 with lwt := lwtFmWts sy2.wt sy2.swt })) := by
  unfold Prjn.setSynVal
  rw [show SynapseVarByName "Wt" = Except.ok 0 from rfl]
  dsimp only
  rw [hk]
  rw [if_neg (by push_neg; omega)]
  rw [if_pos rfl]
  rfl

theorem rt_step (pj pjx : Prjn) (s r k : ℕ)
    (hP : rtState pj pjx)
    (hk : pj.synIdx s r = (k : ℤ)) (hklen : k < pj.syns.length) :
    rtState pj
      ((pjx.setSynVal "SWt" s r ((pj.syns.getD k default).swt)).setSynVal
        "Wt" s r ((pj.syns.getD k default).wt)) := by
  obtain ⟨h1, h2, h3, h4, h5⟩ := hP
  have hkx : pjx.synIdx s r = (k : ℤ) := by rw [synIdx_congr h1 h2 h3, hk]
  have hlenx : k < pjx.syns.length := by omega
  rw [setSynVal_swt_eq pjx s r k _ hkx hlenx]
  have hkx2 : (pjx.withSyns (pjx.syns.set k
      { pjx.syns.getD k default with
        swt := (pj.syns.getD k default).swt })).synIdx s r = (k : ℤ) := hkx
  have hlenx2 : k < (pjx.withSyns (pjx.syns.set k
      { pjx.syns.getD k default with
        swt := (pj.syns.getD k default).swt })).syns.length := by
    simpa [Prjn.withSyns] using hlenx
  rw [setSynVal_wt_eq _ s r k _ hkx2 hlenx2]
  dsimp only [Prjn.withSyns]
  rw [getD_set_self _ _ hlenx, List.set_set]
  refine ⟨h1, h2, h3, by simpa using h4, ?_⟩
  intro k2
  by_cases hk2 : k = k2
  · subst hk2
    rw [getD_set_self _ _ hlenx]
    right
    rcases h5 k with hc | hc <;> rw [hc] <;> unfold roundTripSyn <;>
      dsimp only <;> split_ifs <;> simp_all [roundTripSyn]
  · rw [getD_set_ne _ _ hk2]
    exact h5 k2

theorem wfRecv_spec (pj : Prjn) (hwf : pj.wfRecv = true) (ri ci : ℕ)
    (hri : ri < pj.recvN) (hci : ci < pj.recvConN.getD ri 0) :
    pj.synIdx (pj.recvConIdx.getD (pj.recvConIdxStart.getD ri 0 + ci) 0) ri =
      ((pj.recvSynIdx.getD (pj.recvConIdxStart.getD ri 0 + ci) 0 : ℕ) : ℤ) ∧
    pj.recvSynIdx.getD (pj.recvConIdxStart.getD ri 0 + ci) 0 <
      pj.syns.length := by
  unfold Prjn.wfRecv at hwf
  rw [List.all_eq_true] at hwf
  have h := hwf ri (List.mem_range.mpr hri)
  rw [List.all_eq_true] at h
  have h2 := h ci (List.mem_range.mpr hci)
  dsimp only at h2
  rw [Bool.and_eq_true] at h2
  refine ⟨?_, ?_⟩
  · have hb := h2.1
    rwa [beq_iff_eq] at hb
  · have hb := h2.2
    rwa [decide_eq_true_eq] at hb

theorem setWts_writeWts_rtState (pj : Prjn) (hwf : pj.wfRecv = true) :
    rtState pj (pj.setWts pj.writeWts) := by
  unfold Prjn.setWts Prjn.writeWts
  dsimp only
  apply foldl_inv (rtState pj)
  · exact ⟨rfl, rfl, rfl, rfl, fun _ => Or.inl rfl⟩
  · intro pjx pr hmem hP
    rw [List.mem_map] at hmem
    obtain ⟨ri, hrim, hpr⟩ := hmem
    rw [List.mem_range] at hrim
    subst hpr
    dsimp only
    simp only [List.length_map, List.length_range]
    apply foldl_inv (rtState pj)
    · exact hP
    · intro pjx2 j hjm hP2
      rw [List.mem_range] at hjm
      rw [if_pos (le_refl _)]
      rw [getD_map_range _ _ _ _ hjm, getD_map_range _ _ _ _ hjm,
        getD_map_range _ _ _ _ hjm]
      obtain ⟨hk, hklen⟩ := wfRecv_spec pj hwf ri j hrim hjm
      exact rt_step pj pjx2 _ ri _ hP2 hk hklen

/-- Counterexample to claim C6 as stated: for a synapse saved with SWt = 0
and Wt = 7, reloading the written weights does not restore SWt: the
Wt-setting branch of SetSynVal overwrites a zero SWt with the loaded Wt. -/
theorem setWts_swt_zero_cx :
    (((⟨[1], [0], [0], 1, [1], [0], [0], [0],
        [⟨-1, 7, 0, 0, 0, 0, 0, 0, 0, 0, 0, 0⟩], true, 1⟩ : Prjn).setWts
        (⟨[1], [0], [0], 1, [1], [0], [0], [0],
          [⟨-1, 7, 0, 0, 0, 0, 0, 0, 0, 0, 0, 0⟩], true, 1⟩ : Prjn).writeWts).syns.getD
        0 default).swt ≠
      ((⟨[1], [0], [0], 1, [1], [0], [0], [0],
        [⟨-1, 7, 0, 0, 0, 0, 0, 0, 0, 0, 0, 0⟩], true, 1⟩ : Prjn).syns.getD
        0 default).swt := by
  decide

/-- Claim C6 as amended: on a projection whose receiver-ordered and
sender-ordered index structures are mutually consistent (wfRecv), the
WriteWtsJSON / SetWts round trip (text codec exact per its boundary contract)
restores Wt exactly for every synapse, and restores SWt exactly for every
synapse whose saved SWt is non-zero (a zero SWt is replaced by the loaded
Wt). -/
theorem writeWts_setWts_roundtrip (pj : Prjn) (hwf : pj.wfRecv = true)
    (k : ℕ) :
    ((pj.setWts pj.writeWts).syns.getD k default).wt =
      (pj.syns.getD k default).wt ∧
    ((pj.syns.getD k default).swt ≠ 0 →
      ((pj.setWts pj.writeWts).syns.getD k default).swt =
        (pj.syns.getD k default).swt) := by
  obtain ⟨-, -, -, -, h5⟩ := setWts_writeWts_rtState pj hwf
  rcases h5 k with h | h
  · rw [h]
    exact ⟨rfl, fun _ => rfl⟩
  · rw [h]
    unfold roundTripSyn
    dsimp only
    refine ⟨rfl, fun hne => ?_⟩
    rw [if_neg hne]

/-- Witness for writeWts_setWts_roundtrip at a concrete one-synapse
projection. -/
theorem writeWts_setWts_roundtrip_witness :
    (((⟨[1], [0], [0], 1, [1], [0], [0], [0],
        [⟨-1, 3/5, 1/2, 7/10, 0, 0, 0, 0, 0, 0, 0, 0⟩], true, 1⟩ : Prjn).setWts
        (⟨[1], [0], [0], 1, [1], [0], [0], [0],
          [⟨-1, 3/5, 1/2, 7/10, 0, 0, 0, 0, 0, 0, 0, 0⟩], true, 1⟩ : Prjn).writeWts).syns.getD
        0 default).wt =
      ((⟨[1], [0], [0], 1, [1], [0], [0], [0],
        [⟨-1, 3/5, 1/2, 7/10, 0, 0, 0, 0, 0, 0, 0, 0⟩], true, 1⟩ : Prjn).syns.getD
        0 default).wt :=
  (writeWts_setWts_roundtrip _ (by decide) 0).1

end Axon

namespace Axon

theorem getD_replicate {α : Type} (n i : ℕ) (a d : α) (h : i < n) :
    (List.replicate n a).getD i d = a := by
  rw [List.getD_eq_getElem _ _ (by simpa using h)]
  exact List.getElem_replicate ..

theorem gatherA (d : ℕ) (s w geDt giDt : ℚ) (zi : ℕ) (hzi : zi < d + 1) :
    (spikeStAt d s w geDt giDt zi).gatherSpikes =
      spikeStAt d s w geDt giDt ((zi + 1) % (d + 1)) := by
  unfold SpikePrjn.gatherSpikes spikeStAt gatherGVals FIx.shift FIx.idx
  simp only [List.range_succ, List.range_zero, List.nil_append,
    List.foldl_cons, List.foldl_nil, List.length_singleton]
  norm_num [getD_replicate _ _ _ _ hzi, List.set_replicate_self]

end Axon

namespace Axon

theorem ring_widx (d zi : ℕ) (hzi : zi < d + 1) :
    ((zi + 1) % (d + 1) + d) % (d + 1) = zi := by
  rw [Nat.mod_add_mod]
  have h : zi + 1 + d = zi + (d + 1) := by ring
  rw [h, Nat.add_mod_right, Nat.mod_eq_of_lt hzi]

theorem sendB (d : ℕ) (s w geDt giDt : ℚ) (zi : ℕ) (hzi : zi < d + 1) :
    (spikeStAt d s w geDt giDt ((zi + 1) % (d + 1))).sendSpike 0 =
      spikeStLoaded d s w geDt giDt zi ((zi + 1) % (d + 1)) := by
  unfold SpikePrjn.sendSpike spikeStLoaded spikeStAt listAddAt FIx.idx
  dsimp only [List.getD_cons_zero]
  rw [show List.range 1 = [0] from rfl]
  simp only [List.foldl_cons, List.foldl_nil]
  rw [ring_widx d zi hzi]
  norm_num [getD_replicate _ _ _ _ hzi]

end Axon

namespace Axon

theorem mod_succ_shift (t d : ℕ) : (t % (d + 1) + 1) % (d + 1) = (t + 1) % (d + 1) := by
  rw [Nat.mod_add_mod]

theorem mod_ne_of_k (t d k : ℕ) (h1 : 1 ≤ k) (h2 : k ≤ d) :
    (t + k) % (d + 1) ≠ t % (d + 1) := by
  intro h
  have hmod : t ≡ t + k [MOD d + 1] := h.symm
  have hdvd : (d + 1) ∣ (t + k) - t := (Nat.modEq_iff_dvd' (Nat.le_add_right t k)).1 hmod
  have : (d + 1) ∣ k := by simpa using hdvd
  have := Nat.le_of_dvd (by omega) this
  omega

theorem gatherC (d : ℕ) (s w geDt giDt : ℚ) (widx zj : ℕ)
    (hw : widx < d + 1) (hzj : zj < d + 1) (hne : zj ≠ widx) :
    (spikeStLoaded d s w geDt giDt widx zj).gatherSpikes =
      spikeStLoaded d s w geDt giDt widx ((zj + 1) % (d + 1)) := by
  have h1 : ((List.replicate (d + 1) (0 : ℚ)).set widx (s * w)).getD zj 0 = 0 := by
    rw [getD_set_ne _ _ (Ne.symm hne), getD_replicate _ _ _ _ hzj]
  have h2 : (((List.replicate (d + 1) (0 : ℚ)).set widx (s * w)).set zj 0) =
      (List.replicate (d + 1) (0 : ℚ)).set widx (s * w) := by
    rw [List.set_comm _ _ _ (Ne.symm hne), List.set_replicate_self]
  unfold SpikePrjn.gatherSpikes spikeStLoaded spikeStAt gatherGVals FIx.shift FIx.idx
  simp only [List.range_succ, List.range_zero, List.nil_append,
    List.foldl_cons, List.foldl_nil, List.length_singleton]
  norm_num [h1, h2]
  simpa [List.getD] using h1

theorem gatherD (d : ℕ) (s w geDt giDt : ℚ) (widx : ℕ) (hw : widx < d + 1) :
    (spikeStLoaded d s w geDt giDt widx widx).gatherSpikes =
      spikeStDone d s w geDt giDt ((widx + 1) % (d + 1)) := by
  have h1 : ((List.replicate (d + 1) (0 : ℚ)).set widx (s * w)).getD widx 0 = s * w := by
    rw [getD_set_self]
    rwa [List.length_replicate]
  have h2 : (((List.replicate (d + 1) (0 : ℚ)).set widx (s * w)).set widx 0) =
      List.replicate (d + 1) (0 : ℚ) := by
    rw [List.set_set, List.set_replicate_self]
  unfold SpikePrjn.gatherSpikes spikeStLoaded spikeStDone spikeStAt gatherGVals
    FIx.shift FIx.idx
  simp only [List.range_succ, List.range_zero, List.nil_append,
    List.foldl_cons, List.foldl_nil, List.length_singleton]
  norm_num [h1, h2]
  simpa [List.getD] using h1

end Axon

namespace Axon

theorem oneSpikeAt_ne (t n : ℕ) (h : n ≠ t) : oneSpikeAt t n = [] := by
  simp [oneSpikeAt, h]

theorem cycle_nil (pj : SpikePrjn) : pj.cycle [] = pj.gatherSpikes := rfl

theorem cycle_zero (pj : SpikePrjn) : pj.cycle [0] = pj.gatherSpikes.sendSpike 0 := rfl

theorem run_pre (d t : ℕ) (s w geDt giDt : ℚ) :
    ∀ n, n ≤ t → (spikeStAt d s w geDt giDt 0).runCycles (oneSpikeAt t) n =
      spikeStAt d s w geDt giDt (n % (d + 1)) := by
  intro n
  induction n with
  | zero => intro _; simp [SpikePrjn.runCycles, Nat.zero_mod]
  | succ m ih =>
    intro h
    have hm : m ≤ t := by omega
    unfold SpikePrjn.runCycles
    rw [ih hm, oneSpikeAt_ne t m (by omega), cycle_nil,
      gatherA d s w geDt giDt _ (Nat.mod_lt _ (by omega)), mod_succ_shift]

theorem run_loaded (d t : ℕ) (s w geDt giDt : ℚ) :
    ∀ j, j ≤ d → (spikeStAt d s w geDt giDt 0).runCycles (oneSpikeAt t) (t + 1 + j) =
      spikeStLoaded d s w geDt giDt (t % (d + 1)) ((t + 1 + j) % (d + 1)) := by
  intro j
  induction j with
  | zero =>
    intro _
    show (spikeStAt d s w geDt giDt 0).runCycles (oneSpikeAt t) (t + 1) =
      spikeStLoaded d s w geDt giDt (t % (d + 1)) ((t + 1) % (d + 1))
    unfold SpikePrjn.runCycles
    rw [run_pre d t s w geDt giDt t le_rfl]
    have hsp : oneSpikeAt t t = [0] := by simp [oneSpikeAt]
    rw [hsp, cycle_zero, gatherA d s w geDt giDt _ (Nat.mod_lt _ (by omega)),
      mod_succ_shift, show (t + 1) % (d + 1) = (t % (d + 1) + 1) % (d + 1) from
        (mod_succ_shift t d).symm,
      sendB d s w geDt giDt _ (Nat.mod_lt _ (by omega)), mod_succ_shift]
  | succ m ih =>
    intro h
    have hm : m ≤ d := by omega
    have hne : (t + 1 + m) % (d + 1) ≠ t % (d + 1) := by
      have h0 := mod_ne_of_k t d (1 + m) (by omega) (by omega)
      rwa [show t + (1 + m) = t + 1 + m from by omega] at h0
    show (spikeStAt d s w geDt giDt 0).runCycles (oneSpikeAt t) (t + 1 + m + 1) =
      spikeStLoaded d s w geDt giDt (t % (d + 1)) ((t + 1 + m + 1) % (d + 1))
    unfold SpikePrjn.runCycles
    rw [ih hm, oneSpikeAt_ne t (t + 1 + m) (by omega), cycle_nil,
      gatherC d s w geDt giDt _ _ (Nat.mod_lt _ (by omega)) (Nat.mod_lt _ (by omega)) hne,
      mod_succ_shift]

theorem run_hit (d t : ℕ) (s w geDt giDt : ℚ) :
    (spikeStAt d s w geDt giDt 0).runCycles (oneSpikeAt t) (t + d + 2) =
      spikeStDone d s w geDt giDt ((t % (d + 1) + 1) % (d + 1)) := by
  have h1 := run_loaded d t s w geDt giDt d le_rfl
  rw [show t + 1 + d = t + d + 1 from by omega] at h1
  rw [show (t + d + 1) % (d + 1) = t % (d + 1) from by
    rw [show t + d + 1 = t + (d + 1) from by omega, Nat.add_mod_right]] at h1
  rw [show t + d + 2 = (t + d + 1) + 1 from rfl]
  unfold SpikePrjn.runCycles
  rw [h1, oneSpikeAt_ne t _ (by omega), cycle_nil,
    gatherD d s w geDt giDt _ (Nat.mod_lt _ (by omega))]

/-- Claim C1 (amended): in the one-sender/one-receiver delay-d scenario with
a single spike at cycle t, the receiver's raw conductance GRaw is zero at
every cycle up to and including t+d, and first becomes Scale*Wt at cycle
t+d+1: the gather step of each cycle runs before that cycle's sends, so the
slot written at WriteIdx (zi+delay mod delay+1) is read delay+1 rotations
later. -/
theorem spike_first_affects_receiver (d t : ℕ) (s w geDt giDt : ℚ) :
    (∀ u, u ≤ t + d → (spikeStAt d s w geDt giDt 0).gRawAt (oneSpikeAt t) 0 u = 0) ∧
      (spikeStAt d s w geDt giDt 0).gRawAt (oneSpikeAt t) 0 (t + d + 1) = s * w := by
  constructor
  · intro u hu
    unfold SpikePrjn.gRawAt
    by_cases hc : u + 1 ≤ t
    · rw [run_pre d t s w geDt giDt (u + 1) hc]
      rfl
    · rw [show u + 1 = t + 1 + (u - t) from by omega,
        run_loaded d t s w geDt giDt (u - t) (by omega)]
      rfl
  · unfold SpikePrjn.gRawAt
    rw [show t + d + 1 + 1 = t + d + 2 from rfl, run_hit d t s w geDt giDt]
    rfl

/-- Counterexample to claim C1 as stated: for a projection with delay d = 1
and a spike sent at cycle t = 0, the receiver's GRaw at cycle t+d = 1 is
still zero, not Scale*Wt; the spike first lands at cycle t+d+1. -/
theorem spike_arrival_t_plus_d_cx :
    ¬ ((spikeStAt 1 1 1 0 0 0).gRawAt (oneSpikeAt 0) 0 1 = 1 * 1) := by
  intro h
  unfold SpikePrjn.gRawAt at h
  rw [show (1 : ℕ) + 1 = 0 + 1 + 1 from rfl, run_loaded 1 0 1 1 0 0 1 (by omega)] at h
  have h3 : (0 : ℚ) = 1 * 1 := h
  norm_num at h3

/-- Witness for spike_first_affects_receiver at d = 2, t = 3: GRaw is zero
at cycle 5 = t+d and equals Scale*Wt = 1 at cycle 6 = t+d+1. -/
theorem spike_first_affects_receiver_witness :
    (spikeStAt 2 1 1 0 0 0).gRawAt (oneSpikeAt 3) 0 5 = 0 ∧
      (spikeStAt 2 1 1 0 0 0).gRawAt (oneSpikeAt 3) 0 6 = 1 * 1 :=
  ⟨(spike_first_affects_receiver 2 3 1 1 0 0).1 5 (by decide),
   (spike_first_affects_receiver 2 3 1 1 0 0).2⟩

end Axon
